import Mathlib

/-!
Verification of the spimex trading-results microservice.

Shallow embedding conventions:
* A calendar date is modelled as a day number (`Nat`); subtracting day
  numbers is exactly Python's `(d2 - d1).days` for dates.
* A local wall-clock instant is modelled as microseconds since the local
  epoch midnight (`Nat`).  Python datetime arithmetic between two aware
  datetimes sharing one `tzinfo` (comparison, subtraction, `+ timedelta`)
  is naive wall-clock arithmetic, so `seconds_until_next_cutoff` depends
  only on the wall-clock value produced by `astimezone`; the time-zone
  conversion itself is an arbitrary function `localize : Nat → Nat`.
* JSON values produced by `orjson` are modelled by the inductive `JValue`
  (integers appearing in this program are non-negative); serialisation
  is to `List Char`, hashed through a byte-level UTF-8 encoding.
* The database table is a `List SpimexTradingResult` in storage order;
  `ORDER BY` is a stable merge sort on the sort key, `WHERE` is `filter`,
  `OFFSET`/`LIMIT` are `drop`/`take`.
* The Redis store is an association list `String × List Char` (key to
  stored serialized bytes); `SET` conses (a later write shadows earlier
  ones), expiry is owned by the external store and not modelled.
-/

/-! ## `app/core/timeutils.py` -/


def microsPerSecond : Nat := 1000000

def microsPerDay : Nat := 86400 * microsPerSecond

/-- Embedding of `seconds_until_next_cutoff(now, tz_name, hour, minute)`.
`localize` is the wall-clock conversion performed by `now.astimezone(tz)`;
`localize nowMicro` is the local wall-clock instant in microseconds since
the local epoch midnight.  The candidate cutoff is today's `hour:minute`
(`local_now.replace(...)`); if `local_now >= cutoff` the candidate moves to
tomorrow.  Both the comparison and the final subtraction are wall-clock
(same-`tzinfo` datetime arithmetic), and `int(...total_seconds())`
truncates the microsecond remainder toward zero. -/
def seconds_until_next_cutoff (nowMicro : Nat) (localize : Nat → Nat)
    (hour minute : Nat) : Nat :=
  let localMicro := localize nowMicro
  let microOfDay := localMicro % microsPerDay
  let cutoffMicro := (hour * 3600 + minute * 60) * microsPerSecond
  let deltaMicro :=
    if microOfDay < cutoffMicro then cutoffMicro - microOfDay
    else cutoffMicro + microsPerDay - microOfDay
  deltaMicro / microsPerSecond

/-! ## JSON values

`orjson` payloads exchanged by this program: parameter mappings for cache
keys and the cached response bodies.  The integers this program serializes
(ids, day counts, limits, offsets) are non-negative, so `num` carries a
`Nat`. -/

inductive JValue where
  | null : JValue
  | bool : Bool → JValue
  | num : Nat → JValue
  | str : String → JValue
  | arr : List JValue → JValue
  | obj : List (String × JValue) → JValue

def digitChar (n : Nat) : Char := Char.ofNat (48 + n)

/-- Little-endian decimal digits of `n`; `fuel ≥ n` suffices. -/
def natToRevDigits : Nat → Nat → List Char
  | _, 0 => []
  | 0, _ + 1 => []
  | fuel + 1, n + 1 => digitChar ((n + 1) % 10) :: natToRevDigits fuel ((n + 1) / 10)

/-- Decimal rendering of a natural number, as `orjson` renders an integer. -/
def natToChars (n : Nat) : List Char :=
  if n = 0 then ['0'] else (natToRevDigits n n).reverse

def hexDigitChar (n : Nat) : Char :=
  if n < 10 then Char.ofNat (48 + n) else Char.ofNat (87 + n)

/-- JSON string escaping: quote, backslash, the short control escapes, and
`\u00XX` for the remaining control characters. -/
def escChar (c : Char) : List Char :=
  if c = '"' then ['\\', '"']
  else if c = '\\' then ['\\', '\\']
  else if c = '\n' then ['\\', 'n']
  else if c = '\t' then ['\\', 't']
  else if c = '\r' then ['\\', 'r']
  else if c = '\x08' then ['\\', 'b']
  else if c = '\x0c' then ['\\', 'f']
  else if c.toNat < 32 then
    ['\\', 'u', '0', '0', hexDigitChar (c.toNat / 16), hexDigitChar (c.toNat % 16)]
  else [c]

def escString (s : String) : List Char := s.data.flatMap escChar

def quoteString (s : String) : List Char := '"' :: (escString s ++ ['"'])

mutual

/-- Embedding of `orjson.dumps` (without `OPT_SORT_KEYS`): object members
keep their insertion order. -/
def dumpVal : JValue → List Char
  | .null => 'n' :: 'u' :: 'l' :: 'l' :: []
  | .bool true => 't' :: 'r' :: 'u' :: 'e' :: []
  | .bool false => 'f' :: 'a' :: 'l' :: 's' :: 'e' :: []
  | .num n => natToChars n
  | .str s => quoteString s
  | .arr xs => '[' :: (dumpArr xs ++ [']'])
  | .obj kvs => '\x7b' :: (dumpObj kvs ++ ['\x7d'])

def dumpArr : List JValue → List Char
  | [] => []
  | [x] => dumpVal x
  | x :: y :: xs => dumpVal x ++ ',' :: dumpArr (y :: xs)

def dumpObj : List (String × JValue) → List Char
  | [] => []
  | [(k, v)] => quoteString k ++ ':' :: dumpVal v
  | (k, v) :: m :: kvs => quoteString k ++ ':' :: dumpVal v ++ ',' :: dumpObj (m :: kvs)

end

/-- Lexicographic order on character lists by code point; on the strings
this program uses it coincides with the UTF-8 byte order `orjson` sorts
keys by (UTF-8 is code-point order preserving). -/
def charsLe : List Char → List Char → Bool
  | [], _ => true
  | _ :: _, [] => false
  | a :: as, b :: bs =>
    if a.toNat < b.toNat then true
    else if b.toNat < a.toNat then false
    else charsLe as bs

def strLe (a b : String) : Bool := charsLe a.data b.data

def keyLeP (a b : String × JValue) : Prop := strLe a.1 b.1 = true

instance : DecidableRel keyLeP := fun a b =>
  inferInstanceAs (Decidable (strLe a.1 b.1 = true))

mutual

/-- The recursive key sorting performed by `orjson.OPT_SORT_KEYS`: object
members are sorted by key at every nesting level (a stable sort; dict keys
are distinct, so any sorting algorithm yields the same list). -/
def sortKeysV : JValue → JValue
  | .arr xs => .arr (sortKeysArr xs)
  | .obj kvs => .obj ((sortKeysObj kvs).insertionSort keyLeP)
  | v => v

def sortKeysArr : List JValue → List JValue
  | [] => []
  | x :: xs => sortKeysV x :: sortKeysArr xs

def sortKeysObj : List (String × JValue) → List (String × JValue)
  | [] => []
  | (k, v) :: kvs => (k, sortKeysV v) :: sortKeysObj kvs

end

/-! ## JSON parsing (`orjson.loads`)

A recursive-descent parser over the serialized text, sufficient for (and
slightly laxer than) the JSON subset `orjson.dumps` emits for this
program's payloads; the service only ever parses bytes it previously
stored, so laxness on other inputs is unobservable. -/

def isDigitCh (c : Char) : Bool := decide (48 ≤ c.toNat) && decide (c.toNat ≤ 57)

def noDigitHead : List Char → Bool
  | [] => true
  | c :: _ => !isDigitCh c

def hexVal (c : Char) : Option Nat :=
  if 48 ≤ c.toNat ∧ c.toNat ≤ 57 then some (c.toNat - 48)
  else if 97 ≤ c.toNat ∧ c.toNat ≤ 102 then some (c.toNat - 87)
  else if 65 ≤ c.toNat ∧ c.toNat ≤ 70 then some (c.toNat - 55)
  else none

def escapeVal (c : Char) : Option Char :=
  if c = '"' then some '"'
  else if c = '\\' then some '\\'
  else if c = '/' then some '/'
  else if c = 'n' then some '\n'
  else if c = 't' then some '\t'
  else if c = 'r' then some '\r'
  else if c = 'b' then some '\x08'
  else if c = 'f' then some '\x0c'
  else none

/-- Body of a JSON string literal (after the opening quote), up to and
including the closing quote. -/
def parseStrBody : List Char → Option (List Char × List Char)
  | [] => none
  | c :: rest =>
    if c = '"' then some ([], rest)
    else if c = '\\' then
      match rest with
      | [] => none
      | e :: rest1 =>
        if e = 'u' then
          match rest1 with
          | h1 :: h2 :: h3 :: h4 :: rest2 =>
            match hexVal h1, hexVal h2, hexVal h3, hexVal h4 with
            | some a, some b, some x, some y =>
              (parseStrBody rest2).map
                (fun p => (Char.ofNat (((a * 16 + b) * 16 + x) * 16 + y) :: p.1, p.2))
            | _, _, _, _ => none
          | _ => none
        else
          match escapeVal e with
          | some d => (parseStrBody rest1).map (fun p => (d :: p.1, p.2))
          | none => none
    else (parseStrBody rest).map (fun p => (c :: p.1, p.2))

/-- Maximal digit run, accumulating the decimal value. -/
def parseDigits : List Char → Nat → Nat × List Char
  | [], acc => (acc, [])
  | c :: rest, acc =>
    if isDigitCh c then parseDigits rest (acc * 10 + (c.toNat - 48))
    else (acc, c :: rest)

structure Parsers where
  val : List Char → Option (JValue × List Char)
  arr : List Char → Option (List JValue × List Char)
  obj : List Char → Option (List (String × JValue) × List Char)

def parsersZero : Parsers := ⟨fun _ => none, fun _ => none, fun _ => none⟩

/-- One fuel step of the recursive-descent parser: `P` parses with one
less unit of fuel. -/
def parsersStep (P : Parsers) : Parsers where
  val cs :=
    match cs with
    | [] => none
    | c :: rest =>
      if c = 'n' then
        match rest with
        | 'u' :: 'l' :: 'l' :: rest1 => some (.null, rest1)
        | _ => none
      else if c = 't' then
        match rest with
        | 'r' :: 'u' :: 'e' :: rest1 => some (.bool true, rest1)
        | _ => none
      else if c = 'f' then
        match rest with
        | 'a' :: 'l' :: 's' :: 'e' :: rest1 => some (.bool false, rest1)
        | _ => none
      else if c = '"' then
        match parseStrBody rest with
        | some (s, rest1) => some (.str (String.mk s), rest1)
        | none => none
      else if c = '[' then
        match P.arr rest with
        | some (xs, rest1) => some (.arr xs, rest1)
        | none => none
      else if c = '\x7b' then
        match P.obj rest with
        | some (kvs, rest1) => some (.obj kvs, rest1)
        | none => none
      else if isDigitCh c then
        some (.num (parseDigits rest (c.toNat - 48)).1, (parseDigits rest (c.toNat - 48)).2)
      else none
  arr cs :=
    match cs with
    | [] => none
    | c :: rest =>
      if c = ']' then some ([], rest)
      else
        match P.val (c :: rest) with
        | none => none
        | some (v, rest1) =>
          match rest1 with
          | ',' :: rest2 =>
            match P.arr rest2 with
            | some (xs, rest3) => some (v :: xs, rest3)
            | none => none
          | ']' :: rest2 => some ([v], rest2)
          | _ => none
  obj cs :=
    match cs with
    | [] => none
    | c :: rest =>
      if c = '\x7d' then some ([], rest)
      else if c = '"' then
        match parseStrBody rest with
        | none => none
        | some (k, rest1) =>
          match rest1 with
          | ':' :: rest2 =>
            match P.val rest2 with
            | none => none
            | some (v, rest3) =>
              match rest3 with
              | ',' :: rest4 =>
                match P.obj rest4 with
                | some (kvs, rest5) => some ((String.mk k, v) :: kvs, rest5)
                | none => none
              | '\x7d' :: rest4 => some ([(String.mk k, v)], rest4)
              | _ => none
          | _ => none
      else none

def parsers : Nat → Parsers
  | 0 => parsersZero
  | fuel + 1 => parsersStep (parsers fuel)

def parseVal (fuel : Nat) (cs : List Char) : Option (JValue × List Char) :=
  (parsers fuel).val cs

def parseArr (fuel : Nat) (cs : List Char) : Option (List JValue × List Char) :=
  (parsers fuel).arr cs

def parseObj (fuel : Nat) (cs : List Char) : Option (List (String × JValue) × List Char) :=
  (parsers fuel).obj cs

/-- Embedding of `orjson.loads` on the serialized text. -/
def loads (cs : List Char) : Option JValue :=
  match parseVal (cs.length + 1) cs with
  | some (v, []) => some v
  | _ => none

mutual

/-- Fuel measure for the parser: enough fuel for `parseVal` to parse the
serialized form of a value; bounded by the serialized length. -/
def jsize : JValue → Nat
  | .arr xs => jsizeItems xs + 1
  | .obj kvs => jsizeMembers kvs + 1
  | _ => 1

def jsizeItems : List JValue → Nat
  | [] => 1
  | [v] => jsize v + 1
  | v :: vs => max (jsize v) (jsizeItems vs) + 1

def jsizeMembers : List (String × JValue) → Nat
  | [] => 1
  | [(_, v)] => jsize v + 1
  | (_, v) :: kvs => max (jsize v) (jsizeMembers kvs) + 1

end

/-! ## UTF-8 and SHA-256 (`orjson.dumps` byte output and `hashlib.sha256`) -/

/-- UTF-8 encoding of one code point. -/
def utf8Char (c : Char) : List Nat :=
  let n := c.toNat
  if n < 128 then [n]
  else if n < 2048 then [192 + n / 64, 128 + n % 64]
  else if n < 65536 then [224 + n / 4096, 128 + n / 64 % 64, 128 + n % 64]
  else [240 + n / 262144, 128 + n / 4096 % 64, 128 + n / 64 % 64, 128 + n % 64]

def utf8Bytes (cs : List Char) : List Nat := cs.flatMap utf8Char

def w32 : Nat := 4294967296

def rotr32 (n x : Nat) : Nat := (x / 2 ^ n + x % 2 ^ n * 2 ^ (32 - n)) % w32

def not32 (x : Nat) : Nat := x ^^^ 4294967295

def shaCh (e f g : Nat) : Nat := (e &&& f) ^^^ (not32 e &&& g)

def shaMaj (a b c : Nat) : Nat := (a &&& b) ^^^ (a &&& c) ^^^ (b &&& c)

def bigSigma0 (x : Nat) : Nat := rotr32 2 x ^^^ rotr32 13 x ^^^ rotr32 22 x

def bigSigma1 (x : Nat) : Nat := rotr32 6 x ^^^ rotr32 11 x ^^^ rotr32 25 x

def smallSigma0 (x : Nat) : Nat := rotr32 7 x ^^^ rotr32 18 x ^^^ (x / 2 ^ 3)

def smallSigma1 (x : Nat) : Nat := rotr32 17 x ^^^ rotr32 19 x ^^^ (x / 2 ^ 10)

def sha256K : List Nat :=
  [1116352408, 1899447441, 3049323471, 3921009573, 961987163,
   1508970993, 2453635748, 2870763221, 3624381080, 310598401,
   607225278, 1426881987, 1925078388, 2162078206, 2614888103,
   3248222580, 3835390401, 4022224774, 264347078, 604807628,
   770255983, 1249150122, 1555081692, 1996064986, 2554220882,
   2821834349, 2952996808, 3210313671, 3336571891, 3584528711,
   113926993, 338241895, 666307205, 773529912, 1294757372,
   1396182291, 1695183700, 1986661051, 2177026350, 2456956037,
   2730485921, 2820302411, 3259730800, 3345764771, 3516065817,
   3600352804, 4094571909, 275423344, 430227734, 506948616,
   659060556, 883997877, 958139571, 1322822218, 1537002063,
   1747873779, 1955562222, 2024104815, 2227730452, 2361852424,
   2428436474, 2756734187, 3204031479, 3329325298]

def sha256IV : List Nat :=
  [1779033703, 3144134277, 1013904242, 2773480762,
   1359893119, 2600822924, 528734635, 1541459225]

/-- The `k` bytes of `v`, big-endian. -/
def beBytes : Nat → Nat → List Nat
  | 0, _ => []
  | k + 1, v => beBytes k (v / 256) ++ [v % 256]

/-- FIPS 180-4 padding: append `0x80`, zeros to 56 mod 64, then the bit
length on 8 bytes. -/
def padMessage (msg : List Nat) : List Nat :=
  let l := msg.length
  let zeros := (119 - l % 64) % 64
  msg ++ 128 :: List.replicate zeros 0 ++ beBytes 8 (8 * l)

def bytesToWords : List Nat → List Nat
  | b0 :: b1 :: b2 :: b3 :: rest =>
    (((b0 * 256 + b1) * 256 + b2) * 256 + b3) :: bytesToWords rest
  | _ => []

def chunk16 : Nat → List Nat → List (List Nat)
  | 0, _ => []
  | _, [] => []
  | fuel + 1, ws => ws.take 16 :: chunk16 fuel (ws.drop 16)

/-- Message-schedule extension; `acc` holds the words produced so far,
newest first. -/
def extendW : Nat → List Nat → List Nat
  | 0, acc => acc
  | k + 1, acc =>
    let nw := (smallSigma1 (acc.getD 1 0) + acc.getD 6 0
      + smallSigma0 (acc.getD 14 0) + acc.getD 15 0) % w32
    extendW k (nw :: acc)

def compressStep (st : List Nat) (kw : Nat × Nat) : List Nat :=
  match st with
  | [a, b, c, d, e, f, g, h] =>
    let t1 := (h + bigSigma1 e + shaCh e f g + kw.1 + kw.2) % w32
    let t2 := (bigSigma0 a + shaMaj a b c) % w32
    [(t1 + t2) % w32, a, b, c, (d + t1) % w32, e, f, g]
  | other => other

def processBlock (st : List Nat) (block : List Nat) : List Nat :=
  let ws := (extendW 48 block.reverse).reverse
  let st2 := (sha256K.zip ws).foldl compressStep st
  (st.zip st2).map (fun p => (p.1 + p.2) % w32)

def sha256Words (msg : List Nat) : List Nat :=
  let ws := bytesToWords (padMessage msg)
  (chunk16 ws.length ws).foldl processBlock sha256IV

def byteToHex (b : Nat) : List Char := [hexDigitChar (b / 16), hexDigitChar (b % 16)]

/-- Lowercase hexadecimal SHA-256 digest of a byte list, as
`hashlib.sha256(payload).hexdigest()` renders it. -/
def sha256hex (msg : List Nat) : List Char :=
  ((sha256Words msg).flatMap (beBytes 4)).flatMap byteToHex

/-! ## `app/core/caching.py` — `make_cache_key` -/

def make_cache_key (endpoint version : String) (params : List (String × JValue)) :
    String :=
  let payload := dumpVal (sortKeysV (.obj params))
  "svc:" ++ endpoint ++ ":" ++ version ++ ":" ++ String.mk (sha256hex (utf8Bytes payload))

/-- Strict version of the key order, used to identify the two sorted lists. -/
def keyLtP (a b : String × JValue) : Prop := keyLeP a b ∧ a.1 ≠ b.1

/-! ## `app/db/models.py` — the trading-result row -/

structure SpimexTradingResult where
  id : Nat
  exchange_product_id : String
  exchange_product_name : String
  oil_id : String
  delivery_basis_id : String
  delivery_basis_name : String
  delivery_type_id : String
  volume : String
  total : String
  count : String
  date : Nat
  created_on : Option Nat := none
  updated_on : Option Nat := none
deriving DecidableEq, Repr

/-- Compact row builder for concrete test databases. -/
def mkRow (i : Nat) (epid oil dt dbas : String) (d : Nat) : SpimexTradingResult :=
  { id := i, exchange_product_id := epid, exchange_product_name := "name",
    oil_id := oil, delivery_basis_id := dbas, delivery_basis_name := "basis",
    delivery_type_id := dt, volume := "1", total := "2", count := "3", date := d }

/-! ## `app/repositories/spimex_repo.py`

The table is a list of rows in storage order; `WHERE` filters, `ORDER BY`
stably sorts, `OFFSET`/`LIMIT` drop/take.  Python truthiness of the
optional arguments (`if oil_id:`, `if offset:`, `if limit:`) is modelled
by `truthyStr`/`truthyNat`. -/

def truthyStr : Option String → Bool
  | none => false
  | some s => !(s == "")

def truthyNat : Option Nat → Bool
  | none => false
  | some n => !(n == 0)

def condsHold (conds : List (SpimexTradingResult → Bool))
    (r : SpimexTradingResult) : Bool :=
  conds.all (fun c => c r)

/-- The optional equality conditions appended by both repository queries:
one equality condition per truthy filter argument. -/
def filterConds (oil_id delivery_type_id delivery_basis_id : Option String) :
    List (SpimexTradingResult → Bool) :=
  (if truthyStr oil_id then [fun r => r.oil_id == oil_id.getD ""] else [])
  ++ (if truthyStr delivery_type_id then
        [fun r => r.delivery_type_id == delivery_type_id.getD ""] else [])
  ++ (if truthyStr delivery_basis_id then
        [fun r => r.delivery_basis_id == delivery_basis_id.getD ""] else [])

/-- The condition list built by `get_dynamics`: the inclusive date range
plus one equality condition per truthy filter. -/
def dynamicsConds (start_date end_date : Nat)
    (oil_id delivery_type_id delivery_basis_id : Option String) :
    List (SpimexTradingResult → Bool) :=
  [fun r => decide (start_date ≤ r.date), fun r => decide (r.date ≤ end_date)]
  ++ filterConds oil_id delivery_type_id delivery_basis_id

/-- Ordering `ORDER BY date ASC, exchange_product_id ASC` as a Boolean relation. -/
def dynLe (a b : SpimexTradingResult) : Bool :=
  decide (a.date < b.date)
    || (a.date == b.date && strLe a.exchange_product_id b.exchange_product_id)

def dynLeP (a b : SpimexTradingResult) : Prop := dynLe a b = true

instance : DecidableRel dynLeP := fun a b =>
  inferInstanceAs (Decidable (dynLe a b = true))

/-- Ordering `ORDER BY exchange_product_id ASC` as a relation. -/
def epidLeP (a b : SpimexTradingResult) : Prop :=
  strLe a.exchange_product_id b.exchange_product_id = true

instance : DecidableRel epidLeP := fun a b =>
  inferInstanceAs (Decidable (strLe a.exchange_product_id b.exchange_product_id = true))

/-- Embedding of `SpimexRepository.get_dynamics`. -/
def get_dynamics (db : List SpimexTradingResult) (start_date end_date : Nat)
    (oil_id delivery_type_id delivery_basis_id : Option String)
    (limit offset : Option Nat) : List SpimexTradingResult :=
  let conds := dynamicsConds start_date end_date oil_id delivery_type_id delivery_basis_id
  let rows := (db.filter (condsHold conds)).insertionSort dynLeP
  let rows := if truthyNat offset then rows.drop (offset.getD 0) else rows
  let rows := if truthyNat limit then rows.take (limit.getD 0) else rows
  rows

/-- Embedding of `SpimexRepository.get_last_trading_day`: `MAX(date)`,
`NULL` on an empty table. -/
def get_last_trading_day (db : List SpimexTradingResult) : Option Nat :=
  (db.map (fun r => r.date)).max?

/-- Embedding of `SpimexRepository.get_trading_results_for_last_day`. -/
def get_trading_results_for_last_day (db : List SpimexTradingResult)
    (oil_id delivery_type_id delivery_basis_id : Option String) :
    List SpimexTradingResult :=
  match get_last_trading_day db with
  | none => []
  | some last =>
    let conds := [fun r : SpimexTradingResult => r.date == last]
      ++ filterConds oil_id delivery_type_id delivery_basis_id
    (db.filter (condsHold conds)).insertionSort epidLeP

/-- Ordering `ORDER BY date DESC` as a relation on dates. -/
def dateGeP (a b : Nat) : Prop := b ≤ a

instance : DecidableRel dateGeP := fun a b => inferInstanceAs (Decidable (b ≤ a))

/-- Embedding of `SpimexRepository.get_last_trading_dates`: distinct dates,
descending, first `days`. -/
def get_last_trading_dates (db : List SpimexTradingResult) (days : Nat) : List Nat :=
  (((db.map (fun r => r.date)).dedup).insertionSort dateGeP).take days

/-- A filter argument is "provided" when it is an actual identifier: absent
(`none`) or a non-empty string.  (The empty string is Python-falsy and is
not applied by the source; claim C9 covers that case.) -/
def providedStr (o : Option String) : Prop := ∀ x, o = some x → x ≠ ""

/-! ## `app/core/caching.py` — the Redis adapter

The store maps keys to the stored byte strings (modelled as the decoded
character sequence of the JSON text).  `SET` conses; a later write shadows
earlier ones.  Expiry is enacted by the external store and has no effect
on an immediate read, so the TTL (computed by `seconds_until_next_cutoff`)
is not part of the store state. -/

abbrev CacheStore : Type := List (String × List Char)

def storeLookup (c : CacheStore) (k : String) : Option (List Char) :=
  match c with
  | [] => none
  | (k', v) :: rest => if k' = k then some v else storeLookup rest k

/-- Embedding of `cache_get`: `None` for an absent key, otherwise the
`orjson.loads` decoding of the raw bytes.  (On undecodable bytes Python
raises; the service only reads bytes it previously wrote, for which
`loads` succeeds.) -/
def cache_get (c : CacheStore) (k : String) : Option JValue :=
  match storeLookup c k with
  | none => none
  | some bytes => loads bytes

/-- Embedding of `cache_set_until_cutoff`: serialize and store. -/
def cache_set_until_cutoff (c : CacheStore) (k : String) (v : JValue) : CacheStore :=
  (k, dumpVal v) :: c

/-! ## `app/schemas/spimex.py` and `app/services/spimex_service.py` -/

def MAX_LAST_DATES : Nat := 60

def MAX_DYNAMICS_SPAN_DAYS : Nat := 366

structure DynamicsQuery where
  start_date : Nat
  end_date : Nat
  oil_id : Option String := none
  delivery_type_id : Option String := none
  delivery_basis_id : Option String := none
  limit : Option Nat := none
  offset : Option Nat := none
deriving DecidableEq, Repr

/-- A `datetime.date` serialized by `orjson` (an ISO string; dates being
modelled as day numbers, the rendering is their decimal form — what
matters to the service is that it parses back to the same day). -/
def dateJ (d : Nat) : JValue := .str (String.mk (natToChars d))

def optStrJ : Option String → JValue
  | none => .null
  | some s => .str s

def optNatJ : Option Nat → JValue
  | none => .null
  | some n => .num n

def optDateJ : Option Nat → JValue
  | none => .null
  | some d => dateJ d

/-- Embedding of `DynamicsQuery.model_dump()` in field order, absent options as nulls. -/
def dumpQuery (q : DynamicsQuery) : List (String × JValue) :=
  [("start_date", dateJ q.start_date), ("end_date", dateJ q.end_date),
   ("oil_id", optStrJ q.oil_id),
   ("delivery_type_id", optStrJ q.delivery_type_id),
   ("delivery_basis_id", optStrJ q.delivery_basis_id),
   ("limit", optNatJ q.limit), ("offset", optNatJ q.offset)]

/-- Embedding of `TradingResult.model_validate(r).model_dump()`: the public row shape. -/
def encodeTR (r : SpimexTradingResult) : JValue :=
  .obj [("id", .num r.id),
        ("exchange_product_id", .str r.exchange_product_id),
        ("exchange_product_name", .str r.exchange_product_name),
        ("oil_id", .str r.oil_id),
        ("delivery_basis_id", .str r.delivery_basis_id),
        ("delivery_basis_name", .str r.delivery_basis_name),
        ("delivery_type_id", .str r.delivery_type_id),
        ("volume", .str r.volume),
        ("total", .str r.total),
        ("count", .str r.count),
        ("date", dateJ r.date),
        ("created_on", optDateJ r.created_on),
        ("updated_on", optDateJ r.updated_on)]

def jLookup (kvs : List (String × JValue)) (k : String) : Option JValue :=
  match kvs with
  | [] => none
  | (k', v) :: rest => if k' = k then some v else jLookup rest k

def decodeStr : JValue → Option String
  | .str s => some s
  | _ => none

def decodeNum : JValue → Option Nat
  | .num n => some n
  | _ => none

def charsToNat : List Char → Option Nat :=
  fun cs =>
    if cs = [] then none
    else if cs.all isDigitCh then
      some (cs.foldl (fun a c => a * 10 + (c.toNat - 48)) 0)
    else none

def decodeDate : JValue → Option Nat
  | .str s => charsToNat s.data
  | _ => none

def decodeOptDate : JValue → Option (Option Nat)
  | .null => some none
  | .str s => (charsToNat s.data).map some
  | _ => none

/-- Embedding of `TradingResult(**item)`: pydantic re-validation of a cached item. -/
def decodeTR (j : JValue) : Option SpimexTradingResult :=
  match j with
  | .obj kvs => do
    let i ← (jLookup kvs "id").bind decodeNum
    let epid ← (jLookup kvs "exchange_product_id").bind decodeStr
    let epname ← (jLookup kvs "exchange_product_name").bind decodeStr
    let oil ← (jLookup kvs "oil_id").bind decodeStr
    let dbas ← (jLookup kvs "delivery_basis_id").bind decodeStr
    let dbname ← (jLookup kvs "delivery_basis_name").bind decodeStr
    let dtype ← (jLookup kvs "delivery_type_id").bind decodeStr
    let vol ← (jLookup kvs "volume").bind decodeStr
    let tot ← (jLookup kvs "total").bind decodeStr
    let cnt ← (jLookup kvs "count").bind decodeStr
    let d ← (jLookup kvs "date").bind decodeDate
    let co ← (jLookup kvs "created_on").bind decodeOptDate
    let uo ← (jLookup kvs "updated_on").bind decodeOptDate
    pure { id := i, exchange_product_id := epid, exchange_product_name := epname,
           oil_id := oil, delivery_basis_id := dbas, delivery_basis_name := dbname,
           delivery_type_id := dtype, volume := vol, total := tot, count := cnt,
           date := d, created_on := co, updated_on := uo }
  | _ => none

/-- Decode every element of a list, failing if any element fails. -/
def decodeEach {α : Type} (f : JValue → Option α) : List JValue → Option (List α)
  | [] => some []
  | j :: js =>
    match f j with
    | none => none
    | some a =>
      match decodeEach f js with
      | none => none
      | some as => some (a :: as)

/-- Embedding of `[TradingResult(**item) for item in cached]`: the cached
value must be a list of valid items. -/
def decodeListTR (j : JValue) : Option (List SpimexTradingResult) :=
  match j with
  | .arr items => decodeEach decodeTR items
  | _ => none

/-- Embedding of `TradingDatesResponse(dates=...).model_dump()`. -/
def encodeDatesResp (ds : List Nat) : JValue :=
  .obj [("dates", .arr (ds.map dateJ))]

/-- Embedding of `TradingDatesResponse.model_validate(cached)`. -/
def decodeDatesResp (j : JValue) : Option (List Nat) :=
  match j with
  | .obj kvs =>
    match jLookup kvs "dates" with
    | some (.arr xs) => decodeEach decodeDate xs
    | _ => none
  | _ => none

inductive SvcError where
  | valueError : String → SvcError
  | modelError : SvcError
deriving DecidableEq, Repr

inductive SvcEvent where
  | cacheRead : String → SvcEvent
  | repoCall : SvcEvent
  | cacheWrite : String → SvcEvent
deriving DecidableEq, Repr

/-- One service request's observable outcome: the returned-or-raised
result, the cache state after the request, and the side effects in order
(`cacheRead` covers the `cache_get` round trip, `repoCall` the repository
query, `cacheWrite` the `cache_set_until_cutoff`). -/
structure SvcOutcome (α : Type) where
  result : Except SvcError α
  cache : CacheStore
  events : List SvcEvent

/-- Python's `cached is not None` test: the cached value when present and
not JSON `null` (`orjson.loads(b"null")` is Python `None`). -/
def hitValue (c : CacheStore) (k : String) : Option JValue :=
  match cache_get c k with
  | some .null => none
  | some v => some v
  | none => none

/-- Embedding of `SpimexService.get_dynamics`: validate, derive key, try
the cache, otherwise query the repository, cache the transformed payload
and return it. -/
def svc_get_dynamics (db : List SpimexTradingResult) (cache : CacheStore)
    (q : DynamicsQuery) : SvcOutcome (List SpimexTradingResult) :=
  if q.end_date < q.start_date then
    ⟨.error (.valueError "start_date must be <= end_date"), cache, []⟩
  else if MAX_DYNAMICS_SPAN_DAYS < q.end_date - q.start_date then
    ⟨.error (.valueError "period too long"), cache, []⟩
  else
    let key := make_cache_key "dynamics" "v1" (dumpQuery q)
    match hitValue cache key with
    | some jv =>
      match decodeListTR jv with
      | some items => ⟨.ok items, cache, [.cacheRead key]⟩
      | none => ⟨.error .modelError, cache, [.cacheRead key]⟩
    | none =>
      let rows := get_dynamics db q.start_date q.end_date q.oil_id
        q.delivery_type_id q.delivery_basis_id q.limit q.offset
      let payload : JValue := .arr (rows.map encodeTR)
      match decodeListTR payload with
      | some items =>
        ⟨.ok items, cache_set_until_cutoff cache key payload,
         [.cacheRead key, .repoCall, .cacheWrite key]⟩
      | none =>
        ⟨.error .modelError, cache_set_until_cutoff cache key payload,
         [.cacheRead key, .repoCall, .cacheWrite key]⟩

/-- Embedding of `SpimexService.get_last_trading_dates`. -/
def svc_get_last_trading_dates (db : List SpimexTradingResult)
    (cache : CacheStore) (days : Nat) : SvcOutcome (List Nat) :=
  if days = 0 ∨ MAX_LAST_DATES < days then
    ⟨.error (.valueError "days must be in [1..60]"), cache, []⟩
  else
    let key := make_cache_key "last_trading_dates" "v1" [("days", .num days)]
    match hitValue cache key with
    | some jv =>
      match decodeDatesResp jv with
      | some dates => ⟨.ok dates, cache, [.cacheRead key]⟩
      | none => ⟨.error .modelError, cache, [.cacheRead key]⟩
    | none =>
      let dates := get_last_trading_dates db days
      let payload := encodeDatesResp dates
      match decodeDatesResp payload with
      | some ds =>
        ⟨.ok ds, cache_set_until_cutoff cache key payload,
         [.cacheRead key, .repoCall, .cacheWrite key]⟩
      | none =>
        ⟨.error .modelError, cache_set_until_cutoff cache key payload,
         [.cacheRead key, .repoCall, .cacheWrite key]⟩

/-- Embedding of `SpimexService.get_trading_results`. -/
def svc_get_trading_results (db : List SpimexTradingResult) (cache : CacheStore)
    (oil dt dbas : Option String) : SvcOutcome (List SpimexTradingResult) :=
  let params := [("oil_id", optStrJ oil), ("delivery_type_id", optStrJ dt),
                 ("delivery_basis_id", optStrJ dbas)]
  let key := make_cache_key "trading_results_last_day" "v1" params
  match hitValue cache key with
  | some jv =>
    match decodeListTR jv with
    | some items => ⟨.ok items, cache, [.cacheRead key]⟩
    | none => ⟨.error .modelError, cache, [.cacheRead key]⟩
  | none =>
    let rows := get_trading_results_for_last_day db oil dt dbas
    let payload : JValue := .arr (rows.map encodeTR)
    match decodeListTR payload with
    | some items =>
      ⟨.ok items, cache_set_until_cutoff cache key payload,
       [.cacheRead key, .repoCall, .cacheWrite key]⟩
    | none =>
      ⟨.error .modelError, cache_set_until_cutoff cache key payload,
       [.cacheRead key, .repoCall, .cacheWrite key]⟩

/-! ### Behavioral lemmas for the three service requests -/

def dynKey (q : DynamicsQuery) : String :=
  make_cache_key "dynamics" "v1" (dumpQuery q)

def datesKey (days : Nat) : String :=
  make_cache_key "last_trading_dates" "v1" [("days", .num days)]

def lastDayKey (oil dt dbas : Option String) : String :=
  make_cache_key "trading_results_last_day" "v1"
    [("oil_id", optStrJ oil), ("delivery_type_id", optStrJ dt),
     ("delivery_basis_id", optStrJ dbas)]

/-- A dynamics query that passes the service validation. -/
def validQuery (q : DynamicsQuery) : Prop :=
  q.start_date ≤ q.end_date ∧ q.end_date - q.start_date ≤ MAX_DYNAMICS_SPAN_DAYS

instance : DecidablePred validQuery := fun q =>
  inferInstanceAs (Decidable (q.start_date ≤ q.end_date
    ∧ q.end_date - q.start_date ≤ MAX_DYNAMICS_SPAN_DAYS))

/-- A store whose entries were all written by the service: every stored
value is the serialized form of a non-null JSON value (each service write
serializes a `model_dump` list or mapping, never a bare JSON `null`, so
no stored byte string is `b"null"`). -/
def wfStore (c : CacheStore) : Prop :=
  ∀ kv ∈ c, ∃ v : JValue, v ≠ JValue.null ∧ kv.2 = dumpVal v

/-! ## Theorems -/

/-- C1: as stated the claim is false (the result can be `0` when the local
instant lies strictly inside the final second before the cutoff); amended
form: for every instant, zone conversion and valid cutoff hour/minute the
result is at most 86400, and it is strictly positive whenever the local
instant has a zero sub-second component. -/
theorem C1_cutoff_seconds_bounds (nowMicro : Nat) (localize : Nat → Nat)
    (hour minute : Nat) (hh : hour < 24) (hm : minute < 60) :
    seconds_until_next_cutoff nowMicro localize hour minute ≤ 86400 ∧
    (localize nowMicro % 1000000 = 0 →
      0 < seconds_until_next_cutoff nowMicro localize hour minute) := by
  unfold seconds_until_next_cutoff microsPerDay microsPerSecond
  simp only
  generalize localize nowMicro = x
  split <;> omega

/-- C1 witness: the amended bounds at the concrete instant 10:00:00 local
time with cutoff 14:11. -/
theorem C1_cutoff_seconds_bounds_witness :
    seconds_until_next_cutoff 36000000000 (fun t => t) 14 11 ≤ 86400 ∧
    ((fun t : Nat => t) 36000000000 % 1000000 = 0 →
      0 < seconds_until_next_cutoff 36000000000 (fun t => t) 14 11) :=
  C1_cutoff_seconds_bounds 36000000000 (fun t => t) 14 11 (by decide) (by decide)

/-- C1 counterexample: at local wall time 14:10:59.500000 with cutoff 14:11
the function returns 0, contradicting the claimed strict positivity. -/
theorem C1_counterexample :
    seconds_until_next_cutoff 51059500000 (fun t => t) 14 11 = 0 := by
  decide

/-- C5: as stated the claim is false for the same sub-second reason as C1;
amended form: strictly before the same local day's cutoff the function
targets today's cutoff and returns a value `< 24h` (strictly positive when
the local sub-second component is zero); at or after the cutoff it targets
the next day's cutoff and returns a value `≤ 24h` (strictly positive under
the same proviso). -/
theorem C5_cutoff_branch_behavior (nowMicro : Nat) (localize : Nat → Nat)
    (hour minute : Nat) (hh : hour < 24) (hm : minute < 60) :
    (localize nowMicro % 86400000000 < (hour * 3600 + minute * 60) * 1000000 →
      seconds_until_next_cutoff nowMicro localize hour minute =
        ((hour * 3600 + minute * 60) * 1000000
          - localize nowMicro % 86400000000) / 1000000 ∧
      seconds_until_next_cutoff nowMicro localize hour minute < 86400 ∧
      (localize nowMicro % 1000000 = 0 →
        0 < seconds_until_next_cutoff nowMicro localize hour minute)) ∧
    ((hour * 3600 + minute * 60) * 1000000 ≤ localize nowMicro % 86400000000 →
      seconds_until_next_cutoff nowMicro localize hour minute =
        ((hour * 3600 + minute * 60) * 1000000 + 86400000000
          - localize nowMicro % 86400000000) / 1000000 ∧
      seconds_until_next_cutoff nowMicro localize hour minute ≤ 86400 ∧
      (localize nowMicro % 1000000 = 0 →
        0 < seconds_until_next_cutoff nowMicro localize hour minute)) := by
  unfold seconds_until_next_cutoff microsPerDay microsPerSecond
  simp only
  generalize localize nowMicro = x
  constructor <;> intro hbr <;> refine ⟨?_, ?_, ?_⟩ <;> split <;> omega

/-- C5 witness: the amended branch behaviour at local wall time 10:00:00
with cutoff 14:11 (before-cutoff branch). -/
theorem C5_cutoff_branch_behavior_witness :
    ((fun t : Nat => t) 36000000000 % 86400000000 < (14 * 3600 + 11 * 60) * 1000000 →
      seconds_until_next_cutoff 36000000000 (fun t => t) 14 11 =
        ((14 * 3600 + 11 * 60) * 1000000
          - (fun t : Nat => t) 36000000000 % 86400000000) / 1000000 ∧
      seconds_until_next_cutoff 36000000000 (fun t => t) 14 11 < 86400 ∧
      ((fun t : Nat => t) 36000000000 % 1000000 = 0 →
        0 < seconds_until_next_cutoff 36000000000 (fun t => t) 14 11)) ∧
    ((14 * 3600 + 11 * 60) * 1000000 ≤ (fun t : Nat => t) 36000000000 % 86400000000 →
      seconds_until_next_cutoff 36000000000 (fun t => t) 14 11 =
        ((14 * 3600 + 11 * 60) * 1000000 + 86400000000
          - (fun t : Nat => t) 36000000000 % 86400000000) / 1000000 ∧
      seconds_until_next_cutoff 36000000000 (fun t => t) 14 11 ≤ 86400 ∧
      ((fun t : Nat => t) 36000000000 % 1000000 = 0 →
        0 < seconds_until_next_cutoff 36000000000 (fun t => t) 14 11)) :=
  C5_cutoff_branch_behavior 36000000000 (fun t => t) 14 11 (by decide) (by decide)

/-- C5 counterexample: at local wall time 23:59:59.100000 with cutoff 00:00
the instant is at-or-after the day's cutoff, yet the function returns 0,
outside the claimed interval `(0, 24h]`. -/
theorem C5_counterexample :
    seconds_until_next_cutoff 86399100000 (fun t => t) 0 0 = 0 := by
  decide

/-- SHA-256 test vector: digest of `"abc"`. -/
theorem sha256hex_abc :
    String.mk (sha256hex (utf8Bytes "abc".data)) =
      "ba7816bf8f01cfea414140de5dae2223b00361a396177a9cb410ff61f20015ad" := by
  decide

/-! ### Order lemmas for the canonical key sort -/

theorem charsLe_cons_iff (x y : Char) (xs ys : List Char) :
    charsLe (x :: xs) (y :: ys) = true ↔
      (x.toNat < y.toNat ∨ (x.toNat = y.toNat ∧ charsLe xs ys = true)) := by
  simp only [charsLe]
  constructor
  · intro hab
    by_cases h : x.toNat < y.toNat
    · exact Or.inl h
    · by_cases h' : y.toNat < x.toNat
      · rw [if_neg h, if_pos h'] at hab; cases hab
      · rw [if_neg h, if_neg h'] at hab; exact Or.inr ⟨by omega, hab⟩
  · intro hab
    rcases hab with h | ⟨h, hrec⟩
    · rw [if_pos h]
    · rw [if_neg (by omega), if_neg (by omega)]; exact hrec

theorem charsLe_total : ∀ a b : List Char, charsLe a b = true ∨ charsLe b a = true := by
  intro a
  induction a with
  | nil => intro b; left; rfl
  | cons x xs ih =>
    intro b
    cases b with
    | nil => right; rfl
    | cons y ys =>
      rw [charsLe_cons_iff, charsLe_cons_iff]
      rcases Nat.lt_trichotomy x.toNat y.toNat with h | h | h
      · exact Or.inl (Or.inl h)
      · rcases ih ys with h3 | h3
        · exact Or.inl (Or.inr ⟨h, h3⟩)
        · exact Or.inr (Or.inr ⟨h.symm, h3⟩)
      · exact Or.inr (Or.inl h)

theorem charsLe_trans : ∀ a b c : List Char,
    charsLe a b = true → charsLe b c = true → charsLe a c = true := by
  intro a
  induction a with
  | nil => intro b c _ _; rfl
  | cons x xs ih =>
    intro b c hab hbc
    cases b with
    | nil => simp [charsLe] at hab
    | cons y ys =>
      cases c with
      | nil => simp [charsLe] at hbc
      | cons z zs =>
        rw [charsLe_cons_iff] at hab hbc ⊢
        rcases hab with h1 | ⟨h1, hr1⟩ <;> rcases hbc with h2 | ⟨h2, hr2⟩
        · exact Or.inl (by omega)
        · exact Or.inl (by omega)
        · exact Or.inl (by omega)
        · exact Or.inr ⟨by omega, ih ys zs hr1 hr2⟩

theorem charsLe_antisymm : ∀ a b : List Char,
    charsLe a b = true → charsLe b a = true → a = b := by
  intro a
  induction a with
  | nil =>
    intro b _ hba
    cases b with
    | nil => rfl
    | cons y ys => simp [charsLe] at hba
  | cons x xs ih =>
    intro b hab hba
    cases b with
    | nil => simp [charsLe] at hab
    | cons y ys =>
      rw [charsLe_cons_iff] at hab hba
      rcases hab with h1 | ⟨h1, hr1⟩ <;> rcases hba with h2 | ⟨h2, hr2⟩
      · exact absurd h2 (by omega)
      · exact absurd h1 (by omega)
      · exact absurd h2 (by omega)
      · have hxy : x = y := Char.eq_of_val_eq (UInt32.ext h1)
        rw [hxy, ih ys hr1 hr2]

theorem strLe_antisymm (a b : String) (hab : strLe a b = true)
    (hba : strLe b a = true) : a = b := by
  cases a; cases b
  exact congrArg String.mk (charsLe_antisymm _ _ hab hba)

instance : IsTotal (String × JValue) keyLeP :=
  ⟨fun a b => charsLe_total a.1.data b.1.data⟩

instance : IsTrans (String × JValue) keyLeP :=
  ⟨fun _ _ _ hab hbc => charsLe_trans _ _ _ hab hbc⟩

instance : IsAntisymm (String × JValue) keyLtP :=
  ⟨fun a b h1 h2 => absurd (strLe_antisymm a.1 b.1 h1.1 h2.1) h1.2⟩

theorem sortKeysObj_eq_map (l : List (String × JValue)) :
    sortKeysObj l = l.map (fun kv => (kv.1, sortKeysV kv.2)) := by
  induction l with
  | nil => rfl
  | cons kv kvs ih => cases kv; simp [sortKeysObj, ih]

/-- Two association lists with the same members and no duplicate keys have
the same canonical sort. -/
theorem insertionSort_key_eq_of_perm (l₁ l₂ : List (String × JValue))
    (hp : l₁.Perm l₂) (hn : (l₁.map Prod.fst).Nodup) :
    l₁.insertionSort keyLeP = l₂.insertionSort keyLeP := by
  have hps : (l₁.insertionSort keyLeP).Perm (l₂.insertionSort keyLeP) :=
    ((List.perm_insertionSort keyLeP l₁).trans hp).trans
      (List.perm_insertionSort keyLeP l₂).symm
  have hs₁ : (l₁.insertionSort keyLeP).Sorted keyLeP := List.sorted_insertionSort _ _
  have hs₂ : (l₂.insertionSort keyLeP).Sorted keyLeP := List.sorted_insertionSort _ _
  have hn₁ : ((l₁.insertionSort keyLeP).map Prod.fst).Nodup :=
    ((List.perm_insertionSort keyLeP l₁).map Prod.fst).nodup_iff.mpr hn
  have hn₂ : ((l₂.insertionSort keyLeP).map Prod.fst).Nodup :=
    (hps.map Prod.fst).nodup_iff.mp hn₁
  have hne₁ : (l₁.insertionSort keyLeP).Pairwise (fun a b => a.1 ≠ b.1) :=
    (List.pairwise_map.mp hn₁)
  have hne₂ : (l₂.insertionSort keyLeP).Pairwise (fun a b => a.1 ≠ b.1) :=
    (List.pairwise_map.mp hn₂)
  have hst₁ : (l₁.insertionSort keyLeP).Sorted keyLtP := hs₁.and hne₁
  have hst₂ : (l₂.insertionSort keyLeP).Sorted keyLtP := hs₂.and hne₂
  exact List.eq_of_perm_of_sorted hps hst₁ hst₂

/-- C2: `make_cache_key` is deterministic and insensitive to parameter
order (for mappings, i.e. association lists without duplicate keys), the
key is the literal prefix `svc:{endpoint}:{version}:` followed by the
lowercase hexadecimal SHA-256 digest of the canonical sorted-key JSON
bytes of the parameters, and the two concrete calls of the claim agree. -/
theorem C2_make_cache_key_canonical :
    (∀ (e v : String) (p₁ p₂ : List (String × JValue)),
      p₁.Perm p₂ → (p₁.map Prod.fst).Nodup →
      make_cache_key e v p₁ = make_cache_key e v p₂) ∧
    (∀ (e v : String) (p : List (String × JValue)),
      make_cache_key e v p =
        ("svc:" ++ e ++ ":" ++ v ++ ":")
          ++ String.mk (sha256hex (utf8Bytes (dumpVal (sortKeysV (.obj p))))) ∧
      ∀ c ∈ sha256hex (utf8Bytes (dumpVal (sortKeysV (.obj p)))),
        c ∈ "0123456789abcdef".data) ∧
    make_cache_key "e" "v1" [("a", .num 1), ("b", .num 2)]
      = make_cache_key "e" "v1" [("b", .num 2), ("a", .num 1)] := by
  refine ⟨?_, ?_, by decide⟩
  · intro e v p₁ p₂ hp hn
    have hsv : sortKeysV (.obj p₁) = sortKeysV (.obj p₂) := by
      show JValue.obj _ = JValue.obj _
      refine congrArg JValue.obj ?_
      refine insertionSort_key_eq_of_perm _ _ ?_ ?_
      · rw [sortKeysObj_eq_map, sortKeysObj_eq_map]
        exact hp.map _
      · rw [sortKeysObj_eq_map, List.map_map]
        exact hn
    unfold make_cache_key
    rw [hsv]
  · intro e v p
    refine ⟨rfl, ?_⟩
    intro c hc
    simp only [sha256hex, List.mem_flatMap] at hc
    obtain ⟨b, hb, hcb⟩ := hc
    have hb256 : b < 256 := by
      obtain ⟨wrd, _, hbw⟩ := hb
      have : ∀ k v x, x ∈ beBytes k v → x < 256 := by
        intro k
        induction k with
        | zero => intro v x hx; simp [beBytes] at hx
        | succ k ih =>
          intro v x hx
          simp only [beBytes, List.mem_append, List.mem_singleton] at hx
          rcases hx with hx | hx
          · exact ih _ _ hx
          · omega
      exact this 4 wrd b hbw
    have hhex : ∀ n, n < 16 → hexDigitChar n ∈ "0123456789abcdef".data := by
      intro n hn
      interval_cases n <;> decide
    simp only [byteToHex, List.mem_cons, List.mem_singleton] at hcb
    rcases hcb with rfl | rfl | h
    · exact hhex _ (by omega)
    · exact hhex _ (Nat.mod_lt _ (by omega))
    · simp at h

instance : IsTotal SpimexTradingResult dynLeP := by
  refine ⟨fun a b => ?_⟩
  simp only [dynLeP, dynLe, Bool.or_eq_true, Bool.and_eq_true, decide_eq_true_eq, beq_iff_eq]
  rcases Nat.lt_trichotomy a.date b.date with h | h | h
  · exact Or.inl (Or.inl h)
  · rcases charsLe_total a.exchange_product_id.data b.exchange_product_id.data with h' | h'
    · exact Or.inl (Or.inr ⟨h, h'⟩)
    · exact Or.inr (Or.inr ⟨h.symm, h'⟩)
  · exact Or.inr (Or.inl h)

instance : IsTrans SpimexTradingResult dynLeP := by
  refine ⟨fun a b c hab hbc => ?_⟩
  simp only [dynLeP, dynLe, Bool.or_eq_true, Bool.and_eq_true, decide_eq_true_eq,
    beq_iff_eq] at hab hbc ⊢
  rcases hab with h1 | ⟨h1, hs1⟩ <;> rcases hbc with h2 | ⟨h2, hs2⟩
  · exact Or.inl (by omega)
  · exact Or.inl (by omega)
  · exact Or.inl (by omega)
  · exact Or.inr ⟨by omega, charsLe_trans _ _ _ hs1 hs2⟩

instance : IsTotal SpimexTradingResult epidLeP :=
  ⟨fun a b => charsLe_total a.exchange_product_id.data b.exchange_product_id.data⟩

instance : IsTrans SpimexTradingResult epidLeP :=
  ⟨fun _ _ _ hab hbc => charsLe_trans _ _ _ hab hbc⟩

instance : IsTotal Nat dateGeP := ⟨fun a b => Nat.le_total b a⟩

instance : IsTrans Nat dateGeP := ⟨fun _ _ _ hab hbc => Nat.le_trans hbc hab⟩

/-- C2 witness: the order-insensitivity part applied at the claim's
concrete parameter mappings. -/
theorem C2_make_cache_key_canonical_witness :
    make_cache_key "e" "v1" [("a", .num 1), ("b", .num 2)]
      = make_cache_key "e" "v1" [("b", .num 2), ("a", .num 1)] :=
  C2_make_cache_key_canonical.1 "e" "v1" _ _
    (List.Perm.swap ("b", JValue.num 2) ("a", JValue.num 1) [])
    (by decide)

theorem condsHold_append (c₁ c₂ : List (SpimexTradingResult → Bool))
    (r : SpimexTradingResult) :
    condsHold (c₁ ++ c₂) r = (condsHold c₁ r && condsHold c₂ r) :=
  List.all_append

theorem filterConds_iff (oil dt dbas : Option String)
    (hoil : providedStr oil) (hdt : providedStr dt) (hdbas : providedStr dbas)
    (r : SpimexTradingResult) :
    condsHold (filterConds oil dt dbas) r = true ↔
      ((∀ x, oil = some x → r.oil_id = x) ∧
       (∀ x, dt = some x → r.delivery_type_id = x) ∧
       (∀ x, dbas = some x → r.delivery_basis_id = x)) := by
  simp only [providedStr] at hoil hdt hdbas
  rcases oil with _ | so <;> rcases dt with _ | st <;> rcases dbas with _ | sb <;>
    simp_all [filterConds, condsHold, truthyStr]

/-- C3: `get_dynamics` returns exactly (as a multiset) the rows in the
inclusive date range satisfying every provided equality filter, ordered by
date then product id, with offset applied before limit and omitted bounds
meaning no bound. -/
theorem C3_get_dynamics_spec (db : List SpimexTradingResult) (s e : Nat)
    (oil dt dbas : Option String) :
    (get_dynamics db s e oil dt dbas none none).Perm
        (db.filter (condsHold (dynamicsConds s e oil dt dbas))) ∧
    (get_dynamics db s e oil dt dbas none none).Pairwise dynLeP ∧
    (providedStr oil → providedStr dt → providedStr dbas →
      ∀ r, r ∈ get_dynamics db s e oil dt dbas none none ↔
        (r ∈ db ∧ s ≤ r.date ∧ r.date ≤ e ∧
         (∀ x, oil = some x → r.oil_id = x) ∧
         (∀ x, dt = some x → r.delivery_type_id = x) ∧
         (∀ x, dbas = some x → r.delivery_basis_id = x))) ∧
    (∀ l o : Nat, 0 < l → 0 < o →
      get_dynamics db s e oil dt dbas (some l) (some o) =
        ((get_dynamics db s e oil dt dbas none none).drop o).take l) ∧
    (∀ l : Nat, 0 < l →
      get_dynamics db s e oil dt dbas (some l) none =
        (get_dynamics db s e oil dt dbas none none).take l) ∧
    (∀ o : Nat, 0 < o →
      get_dynamics db s e oil dt dbas none (some o) =
        (get_dynamics db s e oil dt dbas none none).drop o) := by
  have hbase : get_dynamics db s e oil dt dbas none none =
      (db.filter (condsHold (dynamicsConds s e oil dt dbas))).insertionSort dynLeP := by
    simp [get_dynamics, truthyNat]
  refine ⟨?_, ?_, ?_, ?_, ?_, ?_⟩
  · rw [hbase]; exact List.perm_insertionSort _ _
  · rw [hbase]; exact List.sorted_insertionSort _ _
  · intro hoil hdt hdbas r
    rw [hbase, (List.perm_insertionSort dynLeP _).mem_iff, List.mem_filter]
    unfold dynamicsConds
    rw [condsHold_append, Bool.and_eq_true,
      filterConds_iff oil dt dbas hoil hdt hdbas r]
    simp [condsHold, and_assoc]
  · intro l o hl ho
    have h1 : (l == 0) = false := beq_eq_false_iff_ne.mpr (by omega)
    have h2 : (o == 0) = false := beq_eq_false_iff_ne.mpr (by omega)
    simp [get_dynamics, truthyNat, h1, h2]
  · intro l hl
    have h1 : (l == 0) = false := beq_eq_false_iff_ne.mpr (by omega)
    simp [get_dynamics, truthyNat, h1]
  · intro o ho
    have h2 : (o == 0) = false := beq_eq_false_iff_ne.mpr (by omega)
    simp [get_dynamics, truthyNat, h2]

/-- C3 witness: the spec's pagination example — rows dated 10 and 11, range
`[10, 11]`: `limit = 1, offset = 1` is the full result windowed by
drop-then-take, a lone `limit = 1` is a take with no drop, and a lone
`offset = 1` is a drop with no take. -/
theorem C3_get_dynamics_spec_witness :
    (get_dynamics [mkRow 1 "A" "o" "t" "b" 10, mkRow 2 "B" "o" "t" "b" 11]
        10 11 none none none (some 1) (some 1) =
      ((get_dynamics [mkRow 1 "A" "o" "t" "b" 10, mkRow 2 "B" "o" "t" "b" 11]
          10 11 none none none none none).drop 1).take 1) ∧
    (get_dynamics [mkRow 1 "A" "o" "t" "b" 10, mkRow 2 "B" "o" "t" "b" 11]
        10 11 none none none (some 1) none =
      (get_dynamics [mkRow 1 "A" "o" "t" "b" 10, mkRow 2 "B" "o" "t" "b" 11]
          10 11 none none none none none).take 1) ∧
    (get_dynamics [mkRow 1 "A" "o" "t" "b" 10, mkRow 2 "B" "o" "t" "b" 11]
        10 11 none none none none (some 1) =
      (get_dynamics [mkRow 1 "A" "o" "t" "b" 10, mkRow 2 "B" "o" "t" "b" 11]
          10 11 none none none none none).drop 1) :=
  ⟨(C3_get_dynamics_spec [mkRow 1 "A" "o" "t" "b" 10, mkRow 2 "B" "o" "t" "b" 11]
      10 11 none none none).2.2.2.1 1 1 (by decide) (by decide),
   (C3_get_dynamics_spec [mkRow 1 "A" "o" "t" "b" 10, mkRow 2 "B" "o" "t" "b" 11]
      10 11 none none none).2.2.2.2.1 1 (by decide),
   (C3_get_dynamics_spec [mkRow 1 "A" "o" "t" "b" 10, mkRow 2 "B" "o" "t" "b" 11]
      10 11 none none none).2.2.2.2.2 1 (by decide)⟩

/-- C6: the latest-day query returns exactly the rows whose date is maximal
in the relation (none when the relation is empty), narrowed by every
provided equality filter, ordered by product identifier ascending. -/
theorem C6_last_day_results_spec (db : List SpimexTradingResult)
    (oil dt dbas : Option String) (hoil : providedStr oil)
    (hdt : providedStr dt) (hdbas : providedStr dbas) :
    (db = [] → get_trading_results_for_last_day db oil dt dbas = []) ∧
    (get_trading_results_for_last_day db oil dt dbas).Pairwise epidLeP ∧
    (∀ r, r ∈ get_trading_results_for_last_day db oil dt dbas ↔
      (r ∈ db ∧ (∀ q ∈ db, q.date ≤ r.date) ∧
       (∀ x, oil = some x → r.oil_id = x) ∧
       (∀ x, dt = some x → r.delivery_type_id = x) ∧
       (∀ x, dbas = some x → r.delivery_basis_id = x))) := by
  cases hmax : get_last_trading_day db with
  | none =>
    have hdb : db = [] := by
      have := List.max?_eq_none_iff.mp hmax
      simpa using this
    subst hdb
    refine ⟨fun _ => rfl, ?_, ?_⟩
    · simp [get_trading_results_for_last_day, get_last_trading_day]
    · intro r
      simp [get_trading_results_for_last_day, get_last_trading_day]
  | some m =>
    have hm := List.max?_eq_some_iff'.mp hmax
    obtain ⟨hmem, hub⟩ := hm
    have hres : get_trading_results_for_last_day db oil dt dbas =
        (db.filter (condsHold ([fun r : SpimexTradingResult => r.date == m]
          ++ filterConds oil dt dbas))).insertionSort epidLeP := by
      unfold get_trading_results_for_last_day
      rw [hmax]
    refine ⟨?_, ?_, ?_⟩
    · intro hdb
      subst hdb
      simp [get_last_trading_day] at hmax
    · rw [hres]; exact List.sorted_insertionSort _ _
    · intro r
      rw [hres, (List.perm_insertionSort epidLeP _).mem_iff, List.mem_filter]
      rw [condsHold_append, Bool.and_eq_true,
        filterConds_iff oil dt dbas hoil hdt hdbas r]
      simp only [condsHold, List.all_cons, List.all_nil, Bool.and_true, beq_iff_eq]
      constructor
      · rintro ⟨hrdb, ⟨hdate, hfc⟩⟩
        refine ⟨hrdb, ?_, hfc⟩
        intro q hq
        have : q.date ∈ db.map (fun r => r.date) := List.mem_map_of_mem _ hq
        have := hub _ this
        omega
      · rintro ⟨hrdb, hdom, hfc⟩
        refine ⟨hrdb, ?_, hfc⟩
        have h1 : r.date ∈ db.map (fun r => r.date) := List.mem_map_of_mem _ hrdb
        have h2 := hub _ h1
        obtain ⟨q, hq, hqd⟩ := List.mem_map.mp hmem
        have := hdom q hq
        omega

/-- C6 witness: two rows on different dates with an oil-id filter; the
single matching latest-date row is a member of the result. -/
theorem C6_last_day_results_spec_witness :
    mkRow 2 "B" "o2" "t1" "b1" 11 ∈
      get_trading_results_for_last_day
        [mkRow 1 "A" "o1" "t1" "b1" 10, mkRow 2 "B" "o2" "t1" "b1" 11]
        (some "o2") none none :=
  ((C6_last_day_results_spec
      [mkRow 1 "A" "o1" "t1" "b1" 10, mkRow 2 "B" "o2" "t1" "b1" 11]
      (some "o2") none none
      (fun x hx => by injection hx with h; subst h; decide)
      (fun x hx => by cases hx)
      (fun x hx => by cases hx)).2.2 _).mpr
    (by refine ⟨by decide, ?_, ?_, ?_, ?_⟩ <;> decide)

/-- C9: a provided-but-falsy parameter of `get_dynamics` acts exactly like
an absent one: an empty-string equality filter is not applied, offset 0
applies no offset, and limit 0 applies no limit (unbounded result, not zero
rows), for every database state. -/
theorem C9_falsy_params_ignored (db : List SpimexTradingResult) (s e : Nat)
    (oil dt dbas : Option String) (l o : Option Nat) :
    get_dynamics db s e (some "") dt dbas l o
        = get_dynamics db s e none dt dbas l o ∧
    get_dynamics db s e oil (some "") dbas l o
        = get_dynamics db s e oil none dbas l o ∧
    get_dynamics db s e oil dt (some "") l o
        = get_dynamics db s e oil dt none l o ∧
    get_dynamics db s e oil dt dbas l (some 0)
        = get_dynamics db s e oil dt dbas l none ∧
    get_dynamics db s e oil dt dbas (some 0) o
        = get_dynamics db s e oil dt dbas none o := by
  refine ⟨?_, ?_, ?_, ?_, ?_⟩ <;>
    simp [get_dynamics, dynamicsConds, filterConds, truthyStr, truthyNat]

/-! ### Serialize–parse roundtrip -/

theorem digitChar_toNat (d : Nat) (h : d < 10) : (digitChar d).toNat = 48 + d := by
  interval_cases d <;> decide

theorem isDigitCh_digitChar (d : Nat) (h : d < 10) : isDigitCh (digitChar d) = true := by
  interval_cases d <;> decide

theorem natToRevDigits_all : ∀ fuel n, (natToRevDigits fuel n).all isDigitCh = true := by
  intro fuel
  induction fuel with
  | zero => intro n; cases n <;> rfl
  | succ f ih =>
    intro n
    cases n with
    | zero => rfl
    | succ m =>
      simp only [natToRevDigits, List.all_cons, Bool.and_eq_true]
      exact ⟨isDigitCh_digitChar _ (Nat.mod_lt _ (by omega)), ih _⟩

theorem natToRevDigits_foldr : ∀ fuel n, n ≤ fuel →
    (natToRevDigits fuel n).foldr (fun c acc => acc * 10 + (c.toNat - 48)) 0 = n := by
  intro fuel
  induction fuel with
  | zero => intro n h; interval_cases n; rfl
  | succ f ih =>
    intro n h
    cases n with
    | zero => rfl
    | succ m =>
      simp only [natToRevDigits, List.foldr_cons]
      rw [ih ((m + 1) / 10) (by omega), digitChar_toNat _ (Nat.mod_lt _ (by omega))]
      omega

theorem natToChars_spec (n : Nat) : ∃ d ds, natToChars n = d :: ds ∧
    isDigitCh d = true ∧ ds.all isDigitCh = true ∧
    (d :: ds).foldl (fun a c => a * 10 + (c.toNat - 48)) 0 = n := by
  by_cases h : n = 0
  · subst h
    exact ⟨'0', [], rfl, by decide, by decide, by decide⟩
  · have hval : (natToChars n).foldl (fun a c => a * 10 + (c.toNat - 48)) 0 = n := by
      unfold natToChars
      rw [if_neg h, List.foldl_reverse]
      exact natToRevDigits_foldr n n (Nat.le_refl n)
    have hall : (natToChars n).all isDigitCh = true := by
      unfold natToChars
      rw [if_neg h, List.all_reverse]
      exact natToRevDigits_all n n
    cases hnc : natToChars n with
    | nil =>
      exfalso
      unfold natToChars at hnc
      rw [if_neg h] at hnc
      obtain ⟨m, hm⟩ := Nat.exists_eq_succ_of_ne_zero h
      subst hm
      simp [natToRevDigits] at hnc
    | cons d ds =>
      rw [hnc] at hval hall
      simp only [List.all_cons, Bool.and_eq_true] at hall
      exact ⟨d, ds, rfl, hall.1, hall.2, hval⟩

theorem isDigitCh_toNat {c : Char} (h : isDigitCh c = true) :
    48 ≤ c.toNat ∧ c.toNat ≤ 57 := by
  simp only [isDigitCh, Bool.and_eq_true, decide_eq_true_eq] at h
  exact h

theorem parseDigits_append : ∀ ds rest acc, ds.all isDigitCh = true →
    noDigitHead rest = true →
    parseDigits (ds ++ rest) acc =
      (ds.foldl (fun a c => a * 10 + (c.toNat - 48)) acc, rest) := by
  intro ds
  induction ds with
  | nil =>
    intro rest acc _ hnd
    cases rest with
    | nil => rfl
    | cons c rest' =>
      simp only [noDigitHead, Bool.not_eq_true'] at hnd
      simp [parseDigits, hnd]
  | cons d ds' ih =>
    intro rest acc hall hnd
    simp only [List.all_cons, Bool.and_eq_true] at hall
    simp only [List.cons_append, parseDigits, hall.1, if_true, List.foldl_cons]
    exact ih rest _ hall.2 hnd

theorem parseStrBody_escStep (e d : Char) (he : escapeVal e = some d)
    (hu : e ≠ 'u') (L : List Char) :
    parseStrBody ('\\' :: e :: L) =
      (parseStrBody L).map (fun p => (d :: p.1, p.2)) := by
  rw [parseStrBody.eq_def]
  simp [hu, he]

theorem hexVal_hexDigitChar (a : Nat) (h : a < 16) :
    hexVal (hexDigitChar a) = some a := by
  interval_cases a <;> decide

theorem parseStrBody_uStep (a b : Nat) (ha : a < 16) (hb : b < 16) (L : List Char) :
    parseStrBody ('\\' :: 'u' :: '0' :: '0' :: hexDigitChar a :: hexDigitChar b :: L)
      = (parseStrBody L).map (fun p => (Char.ofNat (a * 16 + b) :: p.1, p.2)) := by
  have h0 : hexVal '0' = some 0 := by decide
  rw [parseStrBody.eq_def]
  simp [h0, hexVal_hexDigitChar a ha, hexVal_hexDigitChar b hb]

theorem parseStrBody_plainStep (c : Char) (h1 : c ≠ '"') (h2 : c ≠ '\\')
    (L : List Char) :
    parseStrBody (c :: L) = (parseStrBody L).map (fun p => (c :: p.1, p.2)) := by
  rw [parseStrBody.eq_def]
  simp [h1, h2]

theorem parseStrBody_esc : ∀ cs rest,
    parseStrBody (cs.flatMap escChar ++ '"' :: rest) = some (cs, rest) := by
  intro cs
  induction cs with
  | nil =>
    intro rest
    rw [List.flatMap_nil, List.nil_append, parseStrBody.eq_def]
    simp
  | cons c cs' ih =>
    intro rest
    rw [List.flatMap_cons, List.append_assoc]
    by_cases h1 : c = '"'
    · subst h1
      rw [show escChar '"' = ['\\', '"'] from rfl]
      simp only [List.cons_append, List.nil_append]
      rw [parseStrBody_escStep '"' '"' (by decide) (by decide), ih rest]
      rfl
    by_cases h2 : c = '\\'
    · subst h2
      rw [show escChar '\\' = ['\\', '\\'] from rfl]
      simp only [List.cons_append, List.nil_append]
      rw [parseStrBody_escStep '\\' '\\' (by decide) (by decide), ih rest]
      rfl
    by_cases h3 : c = '\n'
    · subst h3
      rw [show escChar '\n' = ['\\', 'n'] from rfl]
      simp only [List.cons_append, List.nil_append]
      rw [parseStrBody_escStep 'n' '\n' (by decide) (by decide), ih rest]
      rfl
    by_cases h4 : c = '\t'
    · subst h4
      rw [show escChar '\t' = ['\\', 't'] from rfl]
      simp only [List.cons_append, List.nil_append]
      rw [parseStrBody_escStep 't' '\t' (by decide) (by decide), ih rest]
      rfl
    by_cases h5 : c = '\r'
    · subst h5
      rw [show escChar '\r' = ['\\', 'r'] from rfl]
      simp only [List.cons_append, List.nil_append]
      rw [parseStrBody_escStep 'r' '\r' (by decide) (by decide), ih rest]
      rfl
    by_cases h6 : c = '\x08'
    · subst h6
      rw [show escChar '\x08' = ['\\', 'b'] from rfl]
      simp only [List.cons_append, List.nil_append]
      rw [parseStrBody_escStep 'b' '\x08' (by decide) (by decide), ih rest]
      rfl
    by_cases h7 : c = '\x0c'
    · subst h7
      rw [show escChar '\x0c' = ['\\', 'f'] from rfl]
      simp only [List.cons_append, List.nil_append]
      rw [parseStrBody_escStep 'f' '\x0c' (by decide) (by decide), ih rest]
      rfl
    by_cases h8 : c.toNat < 32
    · rw [show escChar c = ['\\', 'u', '0', '0', hexDigitChar (c.toNat / 16),
          hexDigitChar (c.toNat % 16)] from by
        unfold escChar
        rw [if_neg h1, if_neg h2, if_neg h3, if_neg h4, if_neg h5, if_neg h6,
          if_neg h7, if_pos h8]]
      simp only [List.cons_append, List.nil_append]
      rw [parseStrBody_uStep _ _ (by omega) (Nat.mod_lt _ (by omega)), ih rest]
      have hc : c.toNat / 16 * 16 + c.toNat % 16 = c.toNat := by omega
      rw [hc, Char.ofNat_toNat]
      rfl
    · rw [show escChar c = [c] from by
        unfold escChar
        rw [if_neg h1, if_neg h2, if_neg h3, if_neg h4, if_neg h5, if_neg h6,
          if_neg h7, if_neg h8]]
      simp only [List.cons_append, List.nil_append]
      rw [parseStrBody_plainStep c h1 h2, ih rest]
      rfl

theorem parseVal_digits (d : Char) (ds rest : List Char) (fuel : Nat)
    (hd : isDigitCh d = true) (hall : ds.all isDigitCh = true)
    (hnd : noDigitHead rest = true) :
    parseVal (fuel + 1) ((d :: ds) ++ rest) =
      some (.num ((d :: ds).foldl (fun a c => a * 10 + (c.toNat - 48)) 0), rest) := by
  have hb := isDigitCh_toNat hd
  have hn : d ≠ 'n' := fun h => by subst h; exact absurd hb (by decide)
  have ht : d ≠ 't' := fun h => by subst h; exact absurd hb (by decide)
  have hf : d ≠ 'f' := fun h => by subst h; exact absurd hb (by decide)
  have hq : d ≠ '"' := fun h => by subst h; exact absurd hb (by decide)
  have hbr : d ≠ '[' := fun h => by subst h; exact absurd hb (by decide)
  have hcu : d ≠ '\x7b' := fun h => by subst h; exact absurd hb (by decide)
  rw [List.cons_append]
  simp only [parseVal, parsers, parsersStep]
  rw [if_neg hn, if_neg ht, if_neg hf, if_neg hq, if_neg hbr, if_neg hcu, if_pos hd]
  rw [parseDigits_append ds rest _ hall hnd]
  simp [List.foldl_cons]

theorem parseNum (n : Nat) (rest : List Char) (fuel : Nat)
    (hnd : noDigitHead rest = true) :
    parseVal (fuel + 1) (natToChars n ++ rest) = some (.num n, rest) := by
  obtain ⟨d, ds, hnc, hd, hall, hval⟩ := natToChars_spec n
  rw [hnc, parseVal_digits d ds rest fuel hd hall hnd, hval]

theorem dumpVal_head (v : JValue) : ∃ c cs, dumpVal v = c :: cs ∧
    c ≠ ']' ∧ c ≠ '\x7d' := by
  cases v with
  | null => exact ⟨'n', _, rfl, by decide, by decide⟩
  | bool b =>
    cases b with
    | false => exact ⟨'f', _, rfl, by decide, by decide⟩
    | true => exact ⟨'t', _, rfl, by decide, by decide⟩
  | num n =>
    obtain ⟨d, ds, hnc, hd, _, _⟩ := natToChars_spec n
    have hb := isDigitCh_toNat hd
    refine ⟨d, ds, ?_, ?_, ?_⟩
    · show natToChars n = d :: ds
      exact hnc
    · intro h; subst h; exact absurd hb (by decide)
    · intro h; subst h; exact absurd hb (by decide)
  | str s => exact ⟨'"', _, rfl, by decide, by decide⟩
  | arr xs => exact ⟨'[', _, rfl, by decide, by decide⟩
  | obj kvs => exact ⟨'\x7b', _, rfl, by decide, by decide⟩

theorem jsize_pos (v : JValue) : 1 ≤ jsize v := by
  cases v <;> simp [jsize]

theorem jsizeItems_pos (xs : List JValue) : 1 ≤ jsizeItems xs := by
  match xs with
  | [] => simp [jsizeItems]
  | [v] => simp [jsizeItems]
  | v :: w :: xs => simp [jsizeItems]

theorem jsizeMembers_pos (kvs : List (String × JValue)) : 1 ≤ jsizeMembers kvs := by
  match kvs with
  | [] => simp [jsizeMembers]
  | [(k, v)] => simp [jsizeMembers]
  | (k, v) :: m :: kvs => simp [jsizeMembers]

theorem parseVal_def (fuel : Nat) (cs : List Char) :
    (parsers fuel).val cs = parseVal fuel cs := rfl

theorem parseArr_def (fuel : Nat) (cs : List Char) :
    (parsers fuel).arr cs = parseArr fuel cs := rfl

theorem parseObj_def (fuel : Nat) (cs : List Char) :
    (parsers fuel).obj cs = parseObj fuel cs := rfl

theorem parse_dump : ∀ fuel : Nat,
    (∀ (v : JValue) (rest : List Char), jsize v ≤ fuel → noDigitHead rest = true →
      parseVal fuel (dumpVal v ++ rest) = some (v, rest)) ∧
    (∀ (xs : List JValue) (rest : List Char), jsizeItems xs ≤ fuel →
      parseArr fuel (dumpArr xs ++ ']' :: rest) = some (xs, rest)) ∧
    (∀ (kvs : List (String × JValue)) (rest : List Char), jsizeMembers kvs ≤ fuel →
      parseObj fuel (dumpObj kvs ++ '\x7d' :: rest) = some (kvs, rest)) := by
  intro fuel
  induction fuel with
  | zero =>
    refine ⟨fun v rest h _ => absurd h (by have := jsize_pos v; omega),
            fun xs rest h => absurd h (by have := jsizeItems_pos xs; omega),
            fun kvs rest h => absurd h (by have := jsizeMembers_pos kvs; omega)⟩
  | succ f ih =>
    obtain ⟨ihv, iha, iho⟩ := ih
    refine ⟨?_, ?_, ?_⟩
    · intro v rest hsz hnd
      cases v with
      | null => rfl
      | bool b => cases b <;> rfl
      | num n => exact parseNum n rest f hnd
      | str s =>
        have hre : dumpVal (.str s) ++ rest
            = '"' :: (s.data.flatMap escChar ++ '"' :: rest) := by
          simp [dumpVal, quoteString, escString]
        rw [hre]
        simp only [parseVal, parsers, parsersStep]
        simp [parseStrBody_esc s.data rest]
      | arr xs =>
        have hb : jsizeItems xs ≤ f := by
          have h1 : jsize (.arr xs) = jsizeItems xs + 1 := rfl
          omega
        have hre : dumpVal (.arr xs) ++ rest = '[' :: (dumpArr xs ++ ']' :: rest) := by
          simp [dumpVal]
        rw [hre]
        simp only [parseVal, parsers, parsersStep]
        simp [parseArr_def, iha xs rest hb]
      | obj kvs =>
        have hb : jsizeMembers kvs ≤ f := by
          have h1 : jsize (.obj kvs) = jsizeMembers kvs + 1 := rfl
          omega
        have hre : dumpVal (.obj kvs) ++ rest
            = '\x7b' :: (dumpObj kvs ++ '\x7d' :: rest) := by
          simp [dumpVal]
        rw [hre]
        simp only [parseVal, parsers, parsersStep]
        simp [parseObj_def, iho kvs rest hb]
    · intro xs rest hsz
      match xs with
      | [] => rfl
      | [x] =>
        obtain ⟨c, cs, hx, hne1, _⟩ := dumpVal_head x
        have hb : jsize x ≤ f := by
          have h1 : jsizeItems [x] = jsize x + 1 := rfl
          omega
        show parseArr (f + 1) (dumpVal x ++ ']' :: rest) = some ([x], rest)
        rw [hx, List.cons_append]
        simp only [parseArr, parsers, parsersStep]
        rw [if_neg hne1, ← List.cons_append, ← hx, parseVal_def,
          ihv x (']' :: rest) hb rfl]
        rfl
      | x :: y :: xs' =>
        obtain ⟨c, cs, hx, hne1, _⟩ := dumpVal_head x
        have hmax : jsizeItems (x :: y :: xs')
            = max (jsize x) (jsizeItems (y :: xs')) + 1 := rfl
        have hb1 : jsize x ≤ f := by omega
        have hb2 : jsizeItems (y :: xs') ≤ f := by omega
        show parseArr (f + 1)
          ((dumpVal x ++ ',' :: dumpArr (y :: xs')) ++ ']' :: rest)
            = some (x :: y :: xs', rest)
        rw [List.append_assoc, List.cons_append, hx, List.cons_append]
        simp only [parseArr, parsers, parsersStep]
        rw [if_neg hne1, ← List.cons_append, ← hx, parseVal_def,
          ihv x (',' :: (dumpArr (y :: xs') ++ ']' :: rest)) hb1 rfl]
        simp [parseArr_def, iha (y :: xs') rest hb2]
    · intro kvs rest hsz
      match kvs with
      | [] => rfl
      | [(k, v)] =>
        have hb : jsize v ≤ f := by
          have h1 : jsizeMembers [(k, v)] = jsize v + 1 := rfl
          omega
        show parseObj (f + 1)
          ((quoteString k ++ ':' :: dumpVal v) ++ '\x7d' :: rest)
            = some ([(k, v)], rest)
        have hre : (quoteString k ++ ':' :: dumpVal v) ++ '\x7d' :: rest
            = '"' :: (k.data.flatMap escChar
                ++ '"' :: (':' :: (dumpVal v ++ '\x7d' :: rest))) := by
          simp [quoteString, escString]
        rw [hre]
        simp only [parseObj, parsers, parsersStep]
        simp only [parseStrBody_esc k.data]
        simp [parseVal_def, ihv v ('\x7d' :: rest) hb rfl]
      | (k, v) :: m :: kvs' =>
        have hmax : jsizeMembers ((k, v) :: m :: kvs')
            = max (jsize v) (jsizeMembers (m :: kvs')) + 1 := rfl
        have hb1 : jsize v ≤ f := by omega
        have hb2 : jsizeMembers (m :: kvs') ≤ f := by omega
        show parseObj (f + 1)
          ((quoteString k ++ ':' :: dumpVal v ++ ',' :: dumpObj (m :: kvs'))
            ++ '\x7d' :: rest) = some ((k, v) :: m :: kvs', rest)
        have hre : (quoteString k ++ ':' :: dumpVal v ++ ',' :: dumpObj (m :: kvs'))
              ++ '\x7d' :: rest
            = '"' :: (k.data.flatMap escChar
                ++ '"' :: (':' :: (dumpVal v
                  ++ ',' :: (dumpObj (m :: kvs') ++ '\x7d' :: rest)))) := by
          simp [quoteString, escString]
        rw [hre]
        simp only [parseObj, parsers, parsersStep]
        simp only [parseStrBody_esc k.data]
        rw [show ((':' : Char) :: (dumpVal v
            ++ ',' :: (dumpObj (m :: kvs') ++ '\x7d' :: rest)))
          = (':' : Char) :: (dumpVal v
            ++ ',' :: (dumpObj (m :: kvs') ++ '\x7d' :: rest)) from rfl]
        simp only [parseVal_def, ihv v
          (',' :: (dumpObj (m :: kvs') ++ '\x7d' :: rest)) hb1 rfl]
        simp [parseObj_def, iho (m :: kvs') rest hb2]

theorem natToChars_len (n : Nat) : 1 ≤ (natToChars n).length := by
  obtain ⟨d, ds, hnc, _, _, _⟩ := natToChars_spec n
  rw [hnc]
  simp

mutual

theorem jsize_le_len : ∀ v : JValue, jsize v ≤ (dumpVal v).length
  | .null => by simp [jsize, dumpVal]
  | .bool b => by cases b <;> simp [jsize, dumpVal]
  | .num n => by
    have h := natToChars_len n
    simp only [jsize, dumpVal]
    omega
  | .str s => by simp [jsize, dumpVal, quoteString]
  | .arr xs => by
    have h := jsizeItems_le_len xs
    simp only [jsize, dumpVal, List.length_cons, List.length_append,
      List.length_singleton]
    omega
  | .obj kvs => by
    have h := jsizeMembers_le_len kvs
    simp only [jsize, dumpVal, List.length_cons, List.length_append,
      List.length_singleton]
    omega

theorem jsizeItems_le_len : ∀ xs : List JValue,
    jsizeItems xs ≤ (dumpArr xs).length + 1
  | [] => by simp [jsizeItems, dumpArr]
  | [x] => by
    have h := jsize_le_len x
    simp only [jsizeItems, dumpArr]
    omega
  | x :: y :: xs => by
    have h1 := jsize_le_len x
    have h2 := jsizeItems_le_len (y :: xs)
    simp only [jsizeItems, dumpArr, List.length_append, List.length_cons]
    omega

theorem jsizeMembers_le_len : ∀ kvs : List (String × JValue),
    jsizeMembers kvs ≤ (dumpObj kvs).length + 1
  | [] => by simp [jsizeMembers, dumpObj]
  | [(k, v)] => by
    have h := jsize_le_len v
    simp only [jsizeMembers, dumpObj, List.length_append, List.length_cons]
    omega
  | (k, v) :: m :: kvs => by
    have h1 := jsize_le_len v
    have h2 := jsizeMembers_le_len (m :: kvs)
    simp only [jsizeMembers, dumpObj, List.length_append, List.length_cons]
    omega

end

/-- The serialize–parse roundtrip: `orjson.loads` inverts `orjson.dumps`
on every JSON value. -/
theorem loads_dump (v : JValue) : loads (dumpVal v) = some v := by
  unfold loads
  have h1 : jsize v ≤ (dumpVal v).length + 1 := by
    have := jsize_le_len v
    omega
  have h2 := (parse_dump ((dumpVal v).length + 1)).1 v [] h1 rfl
  rw [List.append_nil] at h2
  rw [h2]

theorem mk_data (l : List Char) : (String.mk l).data = l := rfl

theorem charsToNat_natToChars (n : Nat) : charsToNat (natToChars n) = some n := by
  obtain ⟨d, ds, hnc, hd, hall, hval⟩ := natToChars_spec n
  rw [hnc]
  simp [charsToNat, hd, hall, hval]

theorem decodeDate_dateJ (d : Nat) : decodeDate (dateJ d) = some d := by
  simp [decodeDate, dateJ, mk_data, charsToNat_natToChars]

theorem decodeOptDate_optDateJ (o : Option Nat) :
    decodeOptDate (optDateJ o) = some o := by
  cases o with
  | none => rfl
  | some d =>
    simp [optDateJ, decodeOptDate, dateJ, mk_data, charsToNat_natToChars]

theorem decodeTR_encodeTR (r : SpimexTradingResult) :
    decodeTR (encodeTR r) = some r := by
  cases r
  simp [encodeTR, decodeTR, jLookup, decodeStr, decodeNum, decodeDate_dateJ,
    decodeOptDate_optDateJ, dateJ, decodeDate, mk_data, charsToNat_natToChars]

theorem decodeListTR_encode (rows : List SpimexTradingResult) :
    decodeListTR (.arr (rows.map encodeTR)) = some rows := by
  simp only [decodeListTR]
  induction rows with
  | nil => rfl
  | cons r rows ih =>
    simp only [List.map_cons, decodeEach, decodeTR_encodeTR, ih]

theorem decodeDatesResp_encode (ds : List Nat) :
    decodeDatesResp (encodeDatesResp ds) = some ds := by
  simp only [decodeDatesResp, encodeDatesResp, jLookup, if_pos]
  induction ds with
  | nil => rfl
  | cons d ds ih =>
    simp only [List.map_cons, decodeEach, decodeDate_dateJ, ih]

theorem cache_get_set (c : CacheStore) (k : String) (v : JValue) :
    cache_get (cache_set_until_cutoff c k v) k = some v := by
  simp [cache_get, cache_set_until_cutoff, storeLookup, loads_dump v]

/-- C8: storing any serializable value and immediately reading the same
key yields a structurally equal value: `cache_get` finds the newest write
and `orjson.loads` inverts `orjson.dumps`. -/
theorem C8_cache_roundtrip (c : CacheStore) (k : String) (v : JValue) :
    cache_get (cache_set_until_cutoff c k v) k = some v :=
  cache_get_set c k v

theorem hitValue_set (c : CacheStore) (k : String) (v : JValue)
    (h : v ≠ JValue.null) :
    hitValue (cache_set_until_cutoff c k v) k = some v := by
  cases v <;> simp_all [hitValue, cache_get_set]

theorem svc_dynamics_hit (db : List SpimexTradingResult) (cache : CacheStore)
    (q : DynamicsQuery) (jv : JValue) (items : List SpimexTradingResult)
    (hq : validQuery q) (hh : hitValue cache (dynKey q) = some jv)
    (hd : decodeListTR jv = some items) :
    svc_get_dynamics db cache q = ⟨.ok items, cache, [.cacheRead (dynKey q)]⟩ := by
  obtain ⟨hq1, hq2⟩ := hq
  simp only [dynKey] at hh ⊢
  simp only [svc_get_dynamics, if_neg (by omega : ¬ q.end_date < q.start_date),
    if_neg (by omega : ¬ MAX_DYNAMICS_SPAN_DAYS < q.end_date - q.start_date),
    hh, hd]

theorem svc_dynamics_hit_bad (db : List SpimexTradingResult) (cache : CacheStore)
    (q : DynamicsQuery) (jv : JValue)
    (hq : validQuery q) (hh : hitValue cache (dynKey q) = some jv)
    (hd : decodeListTR jv = none) :
    svc_get_dynamics db cache q
      = ⟨.error .modelError, cache, [.cacheRead (dynKey q)]⟩ := by
  obtain ⟨hq1, hq2⟩ := hq
  simp only [dynKey] at hh ⊢
  simp only [svc_get_dynamics, if_neg (by omega : ¬ q.end_date < q.start_date),
    if_neg (by omega : ¬ MAX_DYNAMICS_SPAN_DAYS < q.end_date - q.start_date),
    hh, hd]

theorem svc_dynamics_miss (db : List SpimexTradingResult) (cache : CacheStore)
    (q : DynamicsQuery)
    (hq : validQuery q) (hm : hitValue cache (dynKey q) = none) :
    svc_get_dynamics db cache q =
      ⟨.ok (get_dynamics db q.start_date q.end_date q.oil_id
          q.delivery_type_id q.delivery_basis_id q.limit q.offset),
       cache_set_until_cutoff cache (dynKey q)
         (.arr ((get_dynamics db q.start_date q.end_date q.oil_id
            q.delivery_type_id q.delivery_basis_id q.limit q.offset).map encodeTR)),
       [.cacheRead (dynKey q), .repoCall, .cacheWrite (dynKey q)]⟩ := by
  obtain ⟨hq1, hq2⟩ := hq
  simp only [dynKey] at hm ⊢
  simp only [svc_get_dynamics, if_neg (by omega : ¬ q.end_date < q.start_date),
    if_neg (by omega : ¬ MAX_DYNAMICS_SPAN_DAYS < q.end_date - q.start_date),
    hm, decodeListTR_encode]

theorem svc_dates_hit (db : List SpimexTradingResult) (cache : CacheStore)
    (days : Nat) (jv : JValue) (dates : List Nat)
    (hq : 1 ≤ days ∧ days ≤ MAX_LAST_DATES)
    (hh : hitValue cache (datesKey days) = some jv)
    (hd : decodeDatesResp jv = some dates) :
    svc_get_last_trading_dates db cache days
      = ⟨.ok dates, cache, [.cacheRead (datesKey days)]⟩ := by
  simp only [datesKey] at hh ⊢
  simp only [svc_get_last_trading_dates,
    if_neg (by omega : ¬ (days = 0 ∨ MAX_LAST_DATES < days)), hh, hd]

theorem svc_dates_miss (db : List SpimexTradingResult) (cache : CacheStore)
    (days : Nat) (hq : 1 ≤ days ∧ days ≤ MAX_LAST_DATES)
    (hm : hitValue cache (datesKey days) = none) :
    svc_get_last_trading_dates db cache days =
      ⟨.ok (get_last_trading_dates db days),
       cache_set_until_cutoff cache (datesKey days)
         (encodeDatesResp (get_last_trading_dates db days)),
       [.cacheRead (datesKey days), .repoCall, .cacheWrite (datesKey days)]⟩ := by
  simp only [datesKey] at hm ⊢
  simp only [svc_get_last_trading_dates,
    if_neg (by omega : ¬ (days = 0 ∨ MAX_LAST_DATES < days)), hm,
    decodeDatesResp_encode]

theorem svc_lastday_hit (db : List SpimexTradingResult) (cache : CacheStore)
    (oil dt dbas : Option String) (jv : JValue)
    (items : List SpimexTradingResult)
    (hh : hitValue cache (lastDayKey oil dt dbas) = some jv)
    (hd : decodeListTR jv = some items) :
    svc_get_trading_results db cache oil dt dbas
      = ⟨.ok items, cache, [.cacheRead (lastDayKey oil dt dbas)]⟩ := by
  simp only [lastDayKey] at hh ⊢
  simp only [svc_get_trading_results, hh, hd]

theorem svc_lastday_miss (db : List SpimexTradingResult) (cache : CacheStore)
    (oil dt dbas : Option String)
    (hm : hitValue cache (lastDayKey oil dt dbas) = none) :
    svc_get_trading_results db cache oil dt dbas =
      ⟨.ok (get_trading_results_for_last_day db oil dt dbas),
       cache_set_until_cutoff cache (lastDayKey oil dt dbas)
         (.arr ((get_trading_results_for_last_day db oil dt dbas).map encodeTR)),
       [.cacheRead (lastDayKey oil dt dbas), .repoCall,
        .cacheWrite (lastDayKey oil dt dbas)]⟩ := by
  simp only [lastDayKey] at hm ⊢
  simp only [svc_get_trading_results, hm, decodeListTR_encode]

/-- C4: the dynamics service fails with a `ValueError` (the validation
error the router maps to a client error) exactly when `start > end` or the
span exceeds `MAX_DYNAMICS_SPAN_DAYS`; on a validation failure no cache
read, cache write, or repository call happens and the cache is unchanged. -/
theorem C4_dynamics_validation (db : List SpimexTradingResult)
    (cache : CacheStore) (q : DynamicsQuery) :
    ((∃ msg, (svc_get_dynamics db cache q).result = .error (.valueError msg)) ↔
      (q.end_date < q.start_date
        ∨ MAX_DYNAMICS_SPAN_DAYS < q.end_date - q.start_date)) ∧
    ((q.end_date < q.start_date
        ∨ MAX_DYNAMICS_SPAN_DAYS < q.end_date - q.start_date) →
      (svc_get_dynamics db cache q).cache = cache ∧
      (svc_get_dynamics db cache q).events = []) := by
  by_cases h1 : q.end_date < q.start_date
  · have hout : svc_get_dynamics db cache q
        = ⟨.error (.valueError "start_date must be <= end_date"), cache, []⟩ := by
      simp [svc_get_dynamics, if_pos h1]
    rw [hout]
    exact ⟨⟨fun _ => Or.inl h1, fun _ => ⟨_, rfl⟩⟩, fun _ => ⟨rfl, rfl⟩⟩
  · by_cases h2 : MAX_DYNAMICS_SPAN_DAYS < q.end_date - q.start_date
    · have hout : svc_get_dynamics db cache q
          = ⟨.error (.valueError "period too long"), cache, []⟩ := by
        simp [svc_get_dynamics, if_neg h1, if_pos h2]
      rw [hout]
      exact ⟨⟨fun _ => Or.inr h2, fun _ => ⟨_, rfl⟩⟩, fun _ => ⟨rfl, rfl⟩⟩
    · have hq : validQuery q := ⟨by omega, by omega⟩
      have hnores : ∀ msg, (svc_get_dynamics db cache q).result
          ≠ .error (.valueError msg) := by
        intro msg
        cases hh : hitValue cache (dynKey q) with
        | some jv =>
          cases hd : decodeListTR jv with
          | some items => rw [svc_dynamics_hit db cache q jv items hq hh hd]; simp
          | none => rw [svc_dynamics_hit_bad db cache q jv hq hh hd]; simp
        | none => rw [svc_dynamics_miss db cache q hq hh]; simp
      refine ⟨⟨fun h => ?_, fun h => ?_⟩, fun h => ?_⟩
      · obtain ⟨msg, hmsg⟩ := h
        exact absurd hmsg (hnores msg)
      · rcases h with h | h
        · exact absurd h h1
        · exact absurd h h2
      · rcases h with h | h
        · exact absurd h h1
        · exact absurd h h2

/-- C4 witness: the spec's example `start=11, end=10` fails validation with
an untouched cache and no side effects. -/
theorem C4_dynamics_validation_witness :
    ((∃ msg, (svc_get_dynamics []
        [] ⟨11, 10, none, none, none, none, none⟩).result
          = .error (.valueError msg)) ↔
      ((10 : Nat) < 11 ∨ MAX_DYNAMICS_SPAN_DAYS < 10 - 11)) ∧
    (((10 : Nat) < 11 ∨ MAX_DYNAMICS_SPAN_DAYS < 10 - 11) →
      (svc_get_dynamics [] [] ⟨11, 10, none, none, none, none, none⟩).cache = [] ∧
      (svc_get_dynamics [] [] ⟨11, 10, none, none, none, none, none⟩).events = []) :=
  C4_dynamics_validation [] [] ⟨11, 10, none, none, none, none, none⟩

theorem arr_ne_null (l : List JValue) : JValue.arr l ≠ JValue.null := by
  intro h
  cases h

theorem datesResp_ne_null (ds : List Nat) : encodeDatesResp ds ≠ JValue.null := by
  intro h
  cases h

/-- C7: for each of the three service queries — when the cache holds a
decodable value under the derived key the service returns the value
reconstructed from the store with no repository call and no cache write;
and a miss computes, caches and returns a payload such that re-running the
same request (against any database state) is a pure cache hit returning
the identical result. -/
theorem C7_cache_hit_no_recompute :
    (∀ db cache q jv items, validQuery q →
      hitValue cache (dynKey q) = some jv → decodeListTR jv = some items →
      svc_get_dynamics db cache q
        = ⟨.ok items, cache, [.cacheRead (dynKey q)]⟩) ∧
    (∀ db cache q res db', validQuery q →
      hitValue cache (dynKey q) = none →
      (svc_get_dynamics db cache q).result = .ok res →
      svc_get_dynamics db' (svc_get_dynamics db cache q).cache q
        = ⟨.ok res, (svc_get_dynamics db cache q).cache,
           [.cacheRead (dynKey q)]⟩) ∧
    (∀ db cache days jv dates, 1 ≤ days → days ≤ MAX_LAST_DATES →
      hitValue cache (datesKey days) = some jv →
      decodeDatesResp jv = some dates →
      svc_get_last_trading_dates db cache days
        = ⟨.ok dates, cache, [.cacheRead (datesKey days)]⟩) ∧
    (∀ db cache days res db', 1 ≤ days → days ≤ MAX_LAST_DATES →
      hitValue cache (datesKey days) = none →
      (svc_get_last_trading_dates db cache days).result = .ok res →
      svc_get_last_trading_dates db' (svc_get_last_trading_dates db cache days).cache days
        = ⟨.ok res, (svc_get_last_trading_dates db cache days).cache,
           [.cacheRead (datesKey days)]⟩) ∧
    (∀ db cache oil dt dbas jv items,
      hitValue cache (lastDayKey oil dt dbas) = some jv →
      decodeListTR jv = some items →
      svc_get_trading_results db cache oil dt dbas
        = ⟨.ok items, cache, [.cacheRead (lastDayKey oil dt dbas)]⟩) ∧
    (∀ db cache oil dt dbas res db',
      hitValue cache (lastDayKey oil dt dbas) = none →
      (svc_get_trading_results db cache oil dt dbas).result = .ok res →
      svc_get_trading_results db' (svc_get_trading_results db cache oil dt dbas).cache oil dt dbas
        = ⟨.ok res, (svc_get_trading_results db cache oil dt dbas).cache,
           [.cacheRead (lastDayKey oil dt dbas)]⟩) := by
  refine ⟨?_, ?_, ?_, ?_, ?_, ?_⟩
  · intro db cache q jv items hq hh hd
    exact svc_dynamics_hit db cache q jv items hq hh hd
  · intro db cache q res db' hq hm hres
    have hmiss := svc_dynamics_miss db cache q hq hm
    rw [hmiss] at hres
    simp only at hres
    have hres' : res = get_dynamics db q.start_date q.end_date q.oil_id
        q.delivery_type_id q.delivery_basis_id q.limit q.offset := by
      injection hres with h
      exact h.symm
    have hc : (svc_get_dynamics db cache q).cache
        = cache_set_until_cutoff cache (dynKey q) (.arr (res.map encodeTR)) := by
      rw [hres', hmiss]
    rw [hc]
    have hset : hitValue (cache_set_until_cutoff cache (dynKey q)
        (.arr (res.map encodeTR))) (dynKey q) = some (.arr (res.map encodeTR)) :=
      hitValue_set _ _ _ (arr_ne_null _)
    exact svc_dynamics_hit db' _ q _ res hq hset (decodeListTR_encode res)
  · intro db cache days jv dates h1 h2 hh hd
    exact svc_dates_hit db cache days jv dates ⟨h1, h2⟩ hh hd
  · intro db cache days res db' h1 h2 hm hres
    have hmiss := svc_dates_miss db cache days ⟨h1, h2⟩ hm
    rw [hmiss] at hres
    simp only at hres
    have hres' : res = get_last_trading_dates db days := by
      injection hres with h
      exact h.symm
    have hc : (svc_get_last_trading_dates db cache days).cache
        = cache_set_until_cutoff cache (datesKey days) (encodeDatesResp res) := by
      rw [hres', hmiss]
    rw [hc]
    have hset : hitValue (cache_set_until_cutoff cache (datesKey days)
        (encodeDatesResp res)) (datesKey days) = some (encodeDatesResp res) :=
      hitValue_set _ _ _ (datesResp_ne_null _)
    exact svc_dates_hit db' _ days _ res ⟨h1, h2⟩ hset (decodeDatesResp_encode res)
  · intro db cache oil dt dbas jv items hh hd
    exact svc_lastday_hit db cache oil dt dbas jv items hh hd
  · intro db cache oil dt dbas res db' hm hres
    have hmiss := svc_lastday_miss db cache oil dt dbas hm
    rw [hmiss] at hres
    simp only at hres
    have hres' : res = get_trading_results_for_last_day db oil dt dbas := by
      injection hres with h
      exact h.symm
    have hc : (svc_get_trading_results db cache oil dt dbas).cache
        = cache_set_until_cutoff cache (lastDayKey oil dt dbas)
            (.arr (res.map encodeTR)) := by
      rw [hres', hmiss]
    rw [hc]
    have hset : hitValue (cache_set_until_cutoff cache (lastDayKey oil dt dbas)
        (.arr (res.map encodeTR))) (lastDayKey oil dt dbas)
          = some (.arr (res.map encodeTR)) :=
      hitValue_set _ _ _ (arr_ne_null _)
    exact svc_lastday_hit db' _ oil dt dbas _ res hset (decodeListTR_encode res)

/-- C7 witness: a concrete cache that already holds `[]` under the derived
dynamics key is served from the cache without touching the repository. -/
theorem C7_cache_hit_no_recompute_witness :
    svc_get_dynamics []
        (cache_set_until_cutoff []
          (dynKey ⟨10, 11, none, none, none, none, none⟩) (.arr []))
        ⟨10, 11, none, none, none, none, none⟩
      = ⟨.ok [],
         cache_set_until_cutoff []
           (dynKey ⟨10, 11, none, none, none, none, none⟩) (.arr []),
         [.cacheRead (dynKey ⟨10, 11, none, none, none, none, none⟩)]⟩ :=
  C7_cache_hit_no_recompute.1 [] _ ⟨10, 11, none, none, none, none, none⟩
    (.arr []) [] (by decide)
    (hitValue_set [] (dynKey ⟨10, 11, none, none, none, none, none⟩) (.arr [])
      (arr_ne_null []))
    (by rfl)

theorem storeLookup_wf (c : CacheStore) (k : String) (hwf : wfStore c) :
    storeLookup c k = none
      ∨ ∃ v : JValue, v ≠ JValue.null ∧ storeLookup c k = some (dumpVal v) := by
  induction c with
  | nil => exact Or.inl rfl
  | cons kv rest ih =>
    obtain ⟨k', b⟩ := kv
    by_cases hk : k' = k
    · obtain ⟨v, hnv, hv⟩ := hwf (k', b) (List.mem_cons_self _ _)
      exact Or.inr ⟨v, hnv,
        by simp only [storeLookup, if_pos hk]; exact congrArg some hv⟩
    · have ih' := ih (fun kv hkv => hwf kv (List.mem_cons_of_mem _ hkv))
      simpa [storeLookup, hk] using ih'

/-- C10: over service-written stores the Python `cache_get` returns the
miss marker `None` exactly for absent keys.  Python's `None` return is
observed in the model as `none` (absent key) or `some JValue.null` (stored
`b"null"` bytes, which `orjson.loads` decodes to `None`); the iff is
stated over that disjunction, and service-written stores never hold
`b"null"`, so the second disjunct never fires.  Consequently a dynamics
request whose repository result is empty caches the serialized empty
list, and re-running the same request is a cache hit returning the empty
result with no repository call. -/
theorem C10_empty_result_cached :
    (∀ (c : CacheStore) (k : String), wfStore c →
      ((cache_get c k = none ∨ cache_get c k = some JValue.null)
        ↔ storeLookup c k = none)) ∧
    (∀ db cache q db', validQuery q → hitValue cache (dynKey q) = none →
      get_dynamics db q.start_date q.end_date q.oil_id q.delivery_type_id
        q.delivery_basis_id q.limit q.offset = [] →
      (svc_get_dynamics db cache q).result = .ok [] ∧
      storeLookup (svc_get_dynamics db cache q).cache (dynKey q)
        = some (dumpVal (.arr [])) ∧
      svc_get_dynamics db' (svc_get_dynamics db cache q).cache q
        = ⟨.ok [], (svc_get_dynamics db cache q).cache,
           [.cacheRead (dynKey q)]⟩) := by
  constructor
  · intro c k hwf
    rcases storeLookup_wf c k hwf with h | ⟨v, hnv, h⟩
    · simp [cache_get, h]
    · simp [cache_get, h, loads_dump, hnv]
  · intro db cache q db' hq hm hrows
    have hmiss := svc_dynamics_miss db cache q hq hm
    rw [hrows] at hmiss
    simp only [List.map_nil] at hmiss
    have hc : (svc_get_dynamics db cache q).cache
        = cache_set_until_cutoff cache (dynKey q) (.arr []) := by
      rw [hmiss]
    refine ⟨by rw [hmiss], ?_, ?_⟩
    · rw [hc]
      simp [cache_set_until_cutoff, storeLookup]
    · rw [hc]
      have hset : hitValue (cache_set_until_cutoff cache (dynKey q) (.arr []))
          (dynKey q) = some (.arr []) :=
        hitValue_set _ _ _ (arr_ne_null _)
      have h0 : decodeListTR (.arr []) = some [] := rfl
      exact svc_dynamics_hit db' _ q _ [] hq hset h0

/-- C10 witness: the empty database with an empty cache — the first
request returns and caches the empty list, the second is a pure hit. -/
theorem C10_empty_result_cached_witness :
    (svc_get_dynamics [] [] ⟨10, 11, none, none, none, none, none⟩).result
        = .ok [] ∧
    storeLookup (svc_get_dynamics [] []
        ⟨10, 11, none, none, none, none, none⟩).cache
        (dynKey ⟨10, 11, none, none, none, none, none⟩)
      = some (dumpVal (.arr [])) ∧
    svc_get_dynamics []
        (svc_get_dynamics [] [] ⟨10, 11, none, none, none, none, none⟩).cache
        ⟨10, 11, none, none, none, none, none⟩
      = ⟨.ok [],
         (svc_get_dynamics [] [] ⟨10, 11, none, none, none, none, none⟩).cache,
         [.cacheRead (dynKey ⟨10, 11, none, none, none, none, none⟩)]⟩ :=
  C10_empty_result_cached.2 [] [] ⟨10, 11, none, none, none, none, none⟩ []
    (by decide) (by rfl) (by rfl)

